import Mathlib

/-!
Key derivation of wallet-generator-go.

A shallow embedding of `main.go`: the two derivation functions `deriveKey`
(BIP32, secp256k1) and `deriveEd25519Key` (SLIP-0010, Ed25519), the derivation
paths built by the generators, and the generators themselves.

Conventions.
* A `[]byte` is a `List Nat` of byte values; the nil slice is `[]`.
* A `uint32` is a `Nat` below `2 ^ 32`; arithmetic on it is taken `% 2 ^ 32`.
* A Go result pair `(v, err)` is a Lean pair whose second component is
  `none` for a nil error.
* Code that can panic at run time (slice bounds, `ed25519.NewKeyFromSeed`)
  returns in `Run`, whose error case is the panic. The capacity of a slice is
  taken to be its length.
* Functions of third-party packages and of the Go standard library are fields
  of `Lib`; what the source calls on them is documented at each field.
-/

set_option maxRecDepth 100000

namespace WalletGenerator

/-! ## Data model -/

/-- A byte string (`[]byte`). -/
abbrev Bytes := List Nat

/-- A Go `error` value, identified by its message. -/
abbrev GoError := String

/-- State of the process-wide secure random source: the bytes it will deliver. -/
abbrev Rand := List Nat

/-- Run-time panics the embedded code can raise. -/
inductive Panic where
  | sliceBounds
  | indexRange
  | badSeedLength
deriving DecidableEq, Repr

/-- Outcome of Go code that either completes with a value or panics. -/
abbrev Run (α : Type) := Except Panic α

deriving instance DecidableEq for Except

/-- The result record of `main.go` (`type Wallet struct`). -/
structure Wallet where
  Network : String
  Address : String
  PrivateKey : String
  Mnemonic : String
deriving DecidableEq, Repr

set_option linter.dupNamespace false in
/-- The extended key of package `bip32` (`bip32.Key`), as far as the source reads it:
`deriveKey` returns its field `Key`; the other fields belong to the library. -/
structure Key where
  Key : Bytes
  ChainCode : Bytes
  Depth : Nat
  ChildNumber : Bytes
  FingerPrint : Bytes
  IsPrivate : Bool
deriving DecidableEq, Repr

/-- The library functions `main.go` calls. Values of library types (ECDSA keys,
btcec keys) are carried by their byte encoding. -/
structure Lib where
  /-- Go `bip39.NewSeed(mnemonic, password)`. -/
  NewSeed : String → String → Bytes
  /-- Go `h := hmac.New(sha512.New, key); h.Write(msg); h.Sum(nil)`: the 64-byte MAC. -/
  hmacSha512 : Bytes → Bytes → Bytes
  /-- Go `bip32.NewMasterKey(seed)`. -/
  NewMasterKey : Bytes → Except GoError Key
  /-- Go `key.NewChildKey(idx)`. -/
  NewChildKey : Key → Nat → Except GoError Key
  /-- Go `bip39.NewEntropy(bitSize)`, reading the random source. -/
  NewEntropy : Nat → Rand → Except GoError Bytes
  /-- Go `bip39.NewMnemonic(entropy)`. -/
  NewMnemonic : Bytes → Except GoError String
  /-- Go `crypto.ToECDSA(d)`. -/
  ToECDSA : Bytes → Except GoError Bytes
  /-- Go `crypto.FromECDSA(priv)`. -/
  FromECDSA : Bytes → Bytes
  /-- Go `address.PubkeyToAddress(priv.PublicKey).String()` (gotron-sdk). -/
  tronAddress : Bytes → String
  /-- Go `crypto.PubkeyToAddress(priv.PublicKey).Hex()` (go-ethereum). -/
  ethAddress : Bytes → String
  /-- Go `hex.EncodeToString(b)`. -/
  hexEncodeToString : Bytes → String
  /-- Go `hexutil.Encode(b)`. -/
  hexutilEncode : Bytes → String
  /-- Go `btcec.PrivKeyFromBytes(b)`, first result. -/
  PrivKeyFromBytes : Bytes → Bytes
  /-- Go `priv.PubKey().SerializeCompressed()`. -/
  SerializeCompressed : Bytes → Bytes
  /-- Go `btcutil.Hash160(b)`. -/
  Hash160 : Bytes → Bytes
  /-- Go `btcutil.NewAddressWitnessPubKeyHash(h, &chaincfg.MainNetParams)` followed by
  `EncodeAddress()`. -/
  NewAddressWitnessPubKeyHash : Bytes → Except GoError String
  /-- Go `btcutil.NewWIF(priv, &chaincfg.MainNetParams, true)` followed by `String()`. -/
  NewWIF : Bytes → Except GoError String
  /-- The Ed25519 public key of a 32-byte seed (second half of the private key built by
  `ed25519.NewKeyFromSeed`). -/
  ed25519Public : Bytes → Bytes
  /-- Base58 text of a Solana key (`solana.PublicKey.String`, `solana.PrivateKey.String`). -/
  base58 : Bytes → String

/-! ## Slices and byte encoding -/

/-- The bytes of an ASCII string (`[]byte("...")`). -/
def asciiBytes (s : String) : Bytes := s.data.map Char.toNat

/-- Go `s[:hi]`. -/
def sliceTo (s : Bytes) (hi : Nat) : Run Bytes :=
  if hi ≤ s.length then .ok (s.take hi) else .error .sliceBounds

/-- Go `s[lo:]`. -/
def sliceFrom (s : Bytes) (lo : Nat) : Run Bytes :=
  if lo ≤ s.length then .ok (s.drop lo) else .error .sliceBounds

/-- Go `s[i] = b`. -/
def setByte (s : Bytes) (i b : Nat) : Run Bytes :=
  if i < s.length then .ok (s.set i b) else .error .indexRange

/-- Go `copy(dst[lo:hi], src)`: the slice expression is checked, then
`min (hi - lo) (len src)` bytes are written at offset `lo`. -/
def copyInto (dst : Bytes) (lo hi : Nat) (src : Bytes) : Run Bytes :=
  if lo ≤ hi ∧ hi ≤ dst.length then
    let n := min (hi - lo) src.length
    .ok (dst.take lo ++ src.take n ++ dst.drop (lo + n))
  else .error .sliceBounds

/-- The four bytes `binary.BigEndian.PutUint32` writes for `v`:
`byte(v >> 24), byte(v >> 16), byte(v >> 8), byte(v)`. -/
def putUint32 (v : Nat) : Bytes :=
  [(v >>> 24) % 256, (v >>> 16) % 256, (v >>> 8) % 256, v % 256]

/-- Go `binary.BigEndian.PutUint32(dst[lo:], v)`: the slice expression is checked,
then the destination must hold four bytes. -/
def putUint32From (dst : Bytes) (lo v : Nat) : Run Bytes :=
  if lo ≤ dst.length then
    if 4 ≤ dst.length - lo then .ok (dst.take lo ++ putUint32 v ++ dst.drop (lo + 4))
    else .error .indexRange
  else .error .sliceBounds

/-! ## Ed25519 derivation (`deriveEd25519Key`) -/

/-- The message of one child step (lines 361-364):
`data := make([]byte, 37); data[0] = 0x00; copy(data[1:33], currentKey);
binary.BigEndian.PutUint32(data[33:], index)`. -/
def childData (currentKey : Bytes) (index : Nat) : Run Bytes := do
  let data := List.replicate 37 0
  let data ← setByte data 0 0x00
  let data ← copyInto data 1 33 currentKey
  putUint32From data 33 index

/-- State of the loop of `deriveEd25519Key`, with the messages written to the
child HMACs so far (oldest first). -/
structure EdState where
  currentKey : Bytes
  currentChainCode : Bytes
  written : List Bytes
deriving DecidableEq, Repr

/-- The loop `for _, index := range path` of `deriveEd25519Key` (lines 360-372). -/
def edLoop (lib : Lib) : EdState → List Nat → Run EdState
  | st, [] => .ok st
  | st, index :: rest => do
    let data ← childData st.currentKey index
    let result := lib.hmacSha512 st.currentChainCode data
    let currentKey ← sliceTo result 32
    let currentChainCode ← sliceFrom result 32
    edLoop lib ⟨currentKey, currentChainCode, st.written ++ [data]⟩ rest

/-- The state of `deriveEd25519Key` on entry to its loop (lines 349-357). -/
def edMaster (lib : Lib) (mnemonic : String) : Run EdState := do
  let seed := lib.NewSeed mnemonic ""
  let result := lib.hmacSha512 (asciiBytes "ed25519 seed") seed
  let currentKey ← sliceTo result 32
  let currentChainCode ← sliceFrom result 32
  pure ⟨currentKey, currentChainCode, []⟩

/-- The run of `deriveEd25519Key` up to its `return`: the final loop state. -/
def edRun (lib : Lib) (mnemonic : String) (path : List Nat) : Run EdState := do
  let st ← edMaster lib mnemonic
  edLoop lib st path

/-- Go `deriveEd25519Key(mnemonic, path)` (lines 348-375): returns `currentKey, nil`. -/
def deriveEd25519Key (lib : Lib) (mnemonic : String) (path : List Nat) :
    Run (Bytes × Option GoError) := do
  let st ← edRun lib mnemonic path
  pure (st.currentKey, none)

/-! ## Claim-side descriptions of the Ed25519 derivation -/

/-- Big-endian 32-bit encoding of an index, most significant byte first. -/
def bigEndian32 (i : Nat) : Bytes :=
  [i / 2 ^ 24 % 256, i / 2 ^ 16 % 256, i / 2 ^ 8 % 256, i % 256]

/-- An HMAC output split into (first 32 bytes, last 32 bytes). -/
def splitHalves (r : Bytes) : Bytes × Bytes := (r.take 32, r.drop 32)

/-- The master pair: HMAC-SHA512 with key ASCII "ed25519 seed" over the seed of the
mnemonic (empty passphrase), split into key and chain code. -/
def masterPair (lib : Lib) (mnemonic : String) : Bytes × Bytes :=
  splitHalves (lib.hmacSha512 (asciiBytes "ed25519 seed") (lib.NewSeed mnemonic ""))

/-- One child step with the index encoded as given:
HMAC-SHA512(key = chainCode, message = 0x00 ‖ key ‖ big-endian-32(i)). -/
def childPair (lib : Lib) (s : Bytes × Bytes) (i : Nat) : Bytes × Bytes :=
  splitHalves (lib.hmacSha512 s.2 (0x00 :: s.1 ++ bigEndian32 i))

/-- One child step of the SLIP-0010 reference derivation, which encodes each index as
`index | 0x80000000`. -/
def slip10ChildPair (lib : Lib) (s : Bytes × Bytes) (i : Nat) : Bytes × Bytes :=
  splitHalves (lib.hmacSha512 s.2 (0x00 :: s.1 ++ bigEndian32 (i ||| 0x80000000)))

/-- The SLIP-0010 reference derivation: the key after folding `slip10ChildPair` over
the path from the master pair. -/
def slip10Derive (lib : Lib) (mnemonic : String) (path : List Nat) : Bytes :=
  (path.foldl (slip10ChildPair lib) (masterPair lib mnemonic)).1

/-- The messages the SLIP-0010 reference derivation feeds to its child HMACs, in order. -/
def slip10Messages (lib : Lib) : Bytes × Bytes → List Nat → List Bytes
  | _, [] => []
  | s, i :: rest =>
    (0x00 :: s.1 ++ bigEndian32 (i ||| 0x80000000)) :: slip10Messages lib (slip10ChildPair lib s i) rest

/-- The messages the derivation with indices encoded as given feeds to its child HMACs,
in order. -/
def childMessages (lib : Lib) : Bytes × Bytes → List Nat → List Bytes
  | _, [] => []
  | s, i :: rest =>
    (0x00 :: s.1 ++ bigEndian32 i) :: childMessages lib (childPair lib s i) rest

/-- The HMAC-SHA512 output-size contract: 64 bytes for every key and message. -/
def Hmac64 (lib : Lib) : Prop := ∀ key msg : Bytes, (lib.hmacSha512 key msg).length = 64

/-! ## secp256k1 derivation (`deriveKey`) -/

/-- What a run of `deriveKey` leaves behind: its two results and the indices it passed
to `NewChildKey`, in call order. -/
structure DeriveRun where
  key : Bytes
  err : Option GoError
  derived : List Nat
deriving DecidableEq, Repr

/-- The loop `for _, idx := range path` of `deriveKey` with its two exits
(lines 337-344): `return nil, err` on the first failing child, `return key.Key, nil`
at the end of the path. -/
def deriveKeyLoop (lib : Lib) : Key → List Nat → DeriveRun
  | key, [] => ⟨key.Key, none, []⟩
  | key, idx :: rest =>
    match lib.NewChildKey key idx with
    | .error err => ⟨[], some err, [idx]⟩
    | .ok child =>
      let r := deriveKeyLoop lib child rest
      ⟨r.key, r.err, idx :: r.derived⟩

/-- The run of `deriveKey(mnemonic, path)` (lines 325-345). -/
def deriveKeyRun (lib : Lib) (mnemonic : String) (path : List Nat) : DeriveRun :=
  let seed := lib.NewSeed mnemonic ""
  match lib.NewMasterKey seed with
  | .error err => ⟨[], some err, []⟩
  | .ok masterKey => deriveKeyLoop lib masterKey path

/-- Go `deriveKey(mnemonic, path)`: the pair `([]byte, error)` it returns. -/
def deriveKey (lib : Lib) (mnemonic : String) (path : List Nat) : Bytes × Option GoError :=
  ((deriveKeyRun lib mnemonic path).key, (deriveKeyRun lib mnemonic path).err)

/-- Folding `NewChildKey` left-to-right over a path, stopping at the first error. -/
def foldChildKeys (lib : Lib) (start : Key) (path : List Nat) : Except GoError Key :=
  path.foldlM lib.NewChildKey start

/-! ## Derivation paths and generators -/

/-- Modelled from the spec: the constant `bip32.FirstHardenedChild` of the BIP32 package,
which the spec gives as the hardened offset ("encoded as index + 0x80000000"). -/
def FirstHardenedChild : Nat := 0x80000000

/-- Addition of `uint32` values. -/
def addUint32 (a b : Nat) : Nat := (a + b) % 2 ^ 32

/-- An index is hardened when it is at least `0x80000000`. -/
def isHardened (i : Nat) : Bool := decide (0x80000000 ≤ i)

/-- The `path` literal of `GenerateTron` (lines 94-100). -/
def tronPath : List Nat :=
  [addUint32 FirstHardenedChild 44, addUint32 FirstHardenedChild 195,
   addUint32 FirstHardenedChild 0, 0, 0]

/-- The `path` literal of `GenerateEthereum` (lines 132-138). -/
def ethereumPath : List Nat :=
  [addUint32 FirstHardenedChild 44, addUint32 FirstHardenedChild 60,
   addUint32 FirstHardenedChild 0, 0, 0]

/-- The `path` literal of `GenerateBsc` (lines 170-176). -/
def bscPath : List Nat :=
  [addUint32 FirstHardenedChild 44, addUint32 FirstHardenedChild 60,
   addUint32 FirstHardenedChild 0, 0, 0]

/-- The `path` literal of `GenerateBitcoin` (lines 230-236). -/
def bitcoinPath : List Nat :=
  [addUint32 FirstHardenedChild 84, addUint32 FirstHardenedChild 0,
   addUint32 FirstHardenedChild 0, 0, 0]

/-- The `path` literal of `GenerateSolana` (lines 276-281). -/
def solanaPath : List Nat :=
  [addUint32 FirstHardenedChild 44, addUint32 FirstHardenedChild 501,
   addUint32 FirstHardenedChild 0, addUint32 FirstHardenedChild 0]

/-- Go `generateMnemonic()` (lines 316-322), reading the random source `r`. -/
def generateMnemonic (lib : Lib) (r : Rand) : String × Option GoError :=
  match lib.NewEntropy 128 r with
  | .error err => ("", some err)
  | .ok entropy =>
    match lib.NewMnemonic entropy with
    | .error err => ("", some err)
    | .ok mnemonic => (mnemonic, none)

/-- Go `GenerateTron()` (lines 86-121). -/
def GenerateTron (lib : Lib) (r : Rand) : Option Wallet × Option GoError :=
  match generateMnemonic lib r with
  | (_, some err) => (none, some err)
  | (mnemonic, none) =>
    match deriveKey lib mnemonic tronPath with
    | (_, some err) => (none, some err)
    | (privateKeyBytes, none) =>
      match lib.ToECDSA privateKeyBytes with
      | .error err => (none, some err)
      | .ok privateKey =>
        (some ⟨"Tron", lib.tronAddress privateKey,
          lib.hexEncodeToString privateKeyBytes, mnemonic⟩, none)

/-- Go `GenerateEthereum()` (lines 124-159). -/
def GenerateEthereum (lib : Lib) (r : Rand) : Option Wallet × Option GoError :=
  match generateMnemonic lib r with
  | (_, some err) => (none, some err)
  | (mnemonic, none) =>
    match deriveKey lib mnemonic ethereumPath with
    | (_, some err) => (none, some err)
    | (privateKeyBytes, none) =>
      match lib.ToECDSA privateKeyBytes with
      | .error err => (none, some err)
      | .ok privateKey =>
        (some ⟨"Ethereum", lib.ethAddress privateKey,
          lib.hexutilEncode (lib.FromECDSA privateKey), mnemonic⟩, none)

/-- Go `GenerateBsc()` (lines 162-197). -/
def GenerateBsc (lib : Lib) (r : Rand) : Option Wallet × Option GoError :=
  match generateMnemonic lib r with
  | (_, some err) => (none, some err)
  | (mnemonic, none) =>
    match deriveKey lib mnemonic bscPath with
    | (_, some err) => (none, some err)
    | (privateKeyBytes, none) =>
      match lib.ToECDSA privateKeyBytes with
      | .error err => (none, some err)
      | .ok privateKey =>
        (some ⟨"BSC", lib.ethAddress privateKey,
          lib.hexutilEncode (lib.FromECDSA privateKey), mnemonic⟩, none)

/-- Go `GenerateBitcoin()` (lines 222-265). -/
def GenerateBitcoin (lib : Lib) (r : Rand) : Option Wallet × Option GoError :=
  match generateMnemonic lib r with
  | (_, some err) => (none, some err)
  | (mnemonic, none) =>
    match deriveKey lib mnemonic bitcoinPath with
    | (_, some err) => (none, some err)
    | (privateKeyBytes, none) =>
      let privateKey := lib.PrivKeyFromBytes privateKeyBytes
      let pubKeyHash := lib.Hash160 (lib.SerializeCompressed privateKey)
      match lib.NewAddressWitnessPubKeyHash pubKeyHash with
      | .error err => (none, some err)
      | .ok addr =>
        match lib.NewWIF privateKey with
        | .error err => (none, some err)
        | .ok wif => (some ⟨"Bitcoin", addr, wif, mnemonic⟩, none)

/-- Go `ed25519.NewKeyFromSeed(seed)`: panics unless the seed has 32 bytes; the private
key is the seed followed by the public key. -/
def NewKeyFromSeed (lib : Lib) (seed : Bytes) : Run Bytes :=
  if seed.length = 32 then .ok (seed ++ lib.ed25519Public seed) else .error .badSeedLength

/-- Go `GenerateSolana()` (lines 268-302). -/
def GenerateSolana (lib : Lib) (r : Rand) : Run (Option Wallet × Option GoError) :=
  match generateMnemonic lib r with
  | (_, some err) => .ok (none, some err)
  | (mnemonic, none) =>
    match deriveEd25519Key lib mnemonic solanaPath with
    | .error p => .error p
    | .ok (_, some err) => .ok (none, some err)
    | .ok (privateKeyBytes, none) =>
      match NewKeyFromSeed lib privateKeyBytes with
      | .error p => .error p
      | .ok privateKey =>
        let publicKey := privateKey.drop 32
        .ok (some ⟨"Solana", lib.base58 publicKey, lib.base58 privateKey, mnemonic⟩, none)

/-! ## Reference HMAC-SHA512

The Go standard library's `crypto/sha512` and `crypto/hmac`, written out after
FIPS 180-4 and RFC 2104 on 64-bit words held in `Nat`. It instantiates the field
`Lib.hmacSha512`. -/

namespace Sha512

/-- Modulus of 64-bit word arithmetic. -/
def wordMod : Nat := 2 ^ 64

/-- Rotate a 64-bit word right by `n` bits. -/
def rotr (x n : Nat) : Nat := ((x >>> n) ||| (x <<< (64 - n))) % wordMod

/-- The eighty round constants. -/
def roundConstants : List Nat :=
  [0x428a2f98d728ae22, 0x7137449123ef65cd, 0xb5c0fbcfec4d3b2f, 0xe9b5dba58189dbbc,
   0x3956c25bf348b538, 0x59f111f1b605d019, 0x923f82a4af194f9b, 0xab1c5ed5da6d8118,
   0xd807aa98a3030242, 0x12835b0145706fbe, 0x243185be4ee4b28c, 0x550c7dc3d5ffb4e2,
   0x72be5d74f27b896f, 0x80deb1fe3b1696b1, 0x9bdc06a725c71235, 0xc19bf174cf692694,
   0xe49b69c19ef14ad2, 0xefbe4786384f25e3, 0x0fc19dc68b8cd5b5, 0x240ca1cc77ac9c65,
   0x2de92c6f592b0275, 0x4a7484aa6ea6e483, 0x5cb0a9dcbd41fbd4, 0x76f988da831153b5,
   0x983e5152ee66dfab, 0xa831c66d2db43210, 0xb00327c898fb213f, 0xbf597fc7beef0ee4,
   0xc6e00bf33da88fc2, 0xd5a79147930aa725, 0x06ca6351e003826f, 0x142929670a0e6e70,
   0x27b70a8546d22ffc, 0x2e1b21385c26c926, 0x4d2c6dfc5ac42aed, 0x53380d139d95b3df,
   0x650a73548baf63de, 0x766a0abb3c77b2a8, 0x81c2c92e47edaee6, 0x92722c851482353b,
   0xa2bfe8a14cf10364, 0xa81a664bbc423001, 0xc24b8b70d0f89791, 0xc76c51a30654be30,
   0xd192e819d6ef5218, 0xd69906245565a910, 0xf40e35855771202a, 0x106aa07032bbd1b8,
   0x19a4c116b8d2d0c8, 0x1e376c085141ab53, 0x2748774cdf8eeb99, 0x34b0bcb5e19b48a8,
   0x391c0cb3c5c95a63, 0x4ed8aa4ae3418acb, 0x5b9cca4f7763e373, 0x682e6ff3d6b2b8a3,
   0x748f82ee5defb2fc, 0x78a5636f43172f60, 0x84c87814a1f0ab72, 0x8cc702081a6439ec,
   0x90befffa23631e28, 0xa4506cebde82bde9, 0xbef9a3f7b2c67915, 0xc67178f2e372532b,
   0xca273eceea26619c, 0xd186b8c721c0c207, 0xeada7dd6cde0eb1e, 0xf57d4f7fee6ed178,
   0x06f067aa72176fba, 0x0a637dc5a2c898a6, 0x113f9804bef90dae, 0x1b710b35131c471b,
   0x28db77f523047d84, 0x32caab7b40c72493, 0x3c9ebe0a15c9bebc, 0x431d67c49c100d4c,
   0x4cc5d4becb3e42b6, 0x597f299cfc657e2a, 0x5fcb6fab3ad6faec, 0x6c44198c4a475817]

/-- The eight working words. -/
structure Words where
  a : Nat
  b : Nat
  c : Nat
  d : Nat
  e : Nat
  f : Nat
  g : Nat
  h : Nat
deriving DecidableEq, Repr

/-- Initial hash value. -/
def initial : Words :=
  ⟨0x6a09e667f3bcc908, 0xbb67ae8584caa73b, 0x3c6ef372fe94f82b, 0xa54ff53a5f1d36f1,
   0x510e527fade682d1, 0x9b05688c2b3e6c1f, 0x1f83d9abfb41bd6b, 0x5be0cd19137e2179⟩

/-- The `n` low-order bytes of `v`, most significant first. -/
def bigEndian : Nat → Nat → Bytes
  | 0, _ => []
  | n + 1, v => (v / 256 ^ n) % 256 :: bigEndian n v

/-- The number a byte string denotes, most significant byte first. -/
def ofBigEndian (bs : Bytes) : Nat := bs.foldl (fun acc b => acc * 256 + b) 0

/-- The first `n` 64-bit words of a byte string. -/
def wordsOf : Nat → Bytes → List Nat
  | 0, _ => []
  | n + 1, bs => ofBigEndian (bs.take 8) :: wordsOf n (bs.drop 8)

def smallSigma0 (x : Nat) : Nat := rotr x 1 ^^^ rotr x 8 ^^^ (x >>> 7)

def smallSigma1 (x : Nat) : Nat := rotr x 19 ^^^ rotr x 61 ^^^ (x >>> 6)

def bigSigma0 (x : Nat) : Nat := rotr x 28 ^^^ rotr x 34 ^^^ rotr x 39

def bigSigma1 (x : Nat) : Nat := rotr x 14 ^^^ rotr x 18 ^^^ rotr x 41

/-- The message schedule, newest word first: `n` more words in front of `w`. -/
def schedule : Nat → List Nat → List Nat
  | 0, w => w
  | n + 1, w =>
    schedule n
      ((smallSigma1 (w.getD 1 0) + w.getD 6 0 + smallSigma0 (w.getD 14 0) + w.getD 15 0)
        % wordMod :: w)

/-- One round, on a pair (round constant, schedule word). -/
def round (s : Words) (kw : Nat × Nat) : Words :=
  let ch := (s.e &&& s.f) ^^^ ((wordMod - 1 - s.e) &&& s.g)
  let maj := (s.a &&& s.b) ^^^ (s.a &&& s.c) ^^^ (s.b &&& s.c)
  let t1 := (s.h + bigSigma1 s.e + ch + kw.1 + kw.2) % wordMod
  let t2 := (bigSigma0 s.a + maj) % wordMod
  ⟨(t1 + t2) % wordMod, s.a, s.b, s.c, (s.d + t1) % wordMod, s.e, s.f, s.g⟩

/-- The compression function on one 128-byte block. -/
def compress (s : Words) (block : Bytes) : Words :=
  let w := (schedule 64 (wordsOf 16 block).reverse).reverse
  let r := (roundConstants.zip w).foldl round s
  ⟨(s.a + r.a) % wordMod, (s.b + r.b) % wordMod, (s.c + r.c) % wordMod,
   (s.d + r.d) % wordMod, (s.e + r.e) % wordMod, (s.f + r.f) % wordMod,
   (s.g + r.g) % wordMod, (s.h + r.h) % wordMod⟩

/-- Padding: a 0x80 byte, zeros up to 112 modulo 128, the bit length on 16 bytes. -/
def pad (msg : Bytes) : Bytes :=
  msg ++ 0x80 :: List.replicate ((239 - msg.length % 128) % 128) 0
    ++ bigEndian 16 (8 * msg.length)

/-- Compression of the first `n` blocks of a byte string. -/
def absorb : Nat → Words → Bytes → Words
  | 0, s, _ => s
  | n + 1, s, bs => absorb n (compress s (bs.take 128)) (bs.drop 128)

/-- SHA-512 of a byte string: 64 bytes. -/
def digest (msg : Bytes) : Bytes :=
  let p := pad msg
  let s := absorb (p.length / 128) initial p
  bigEndian 8 s.a ++ bigEndian 8 s.b ++ bigEndian 8 s.c ++ bigEndian 8 s.d ++
  bigEndian 8 s.e ++ bigEndian 8 s.f ++ bigEndian 8 s.g ++ bigEndian 8 s.h

/-- The key block of HMAC, zero-padded to 128 bytes and xored with a constant. -/
def keyPad (key : Bytes) (c : Nat) : Bytes :=
  (key ++ List.replicate (128 - key.length) 0).map (fun b => b ^^^ c)

/-- HMAC-SHA512 of `msg` under `key`. -/
def hmac (key msg : Bytes) : Bytes :=
  let k := if key.length > 128 then digest key else key
  digest (keyPad k 0x5c ++ digest (keyPad k 0x36 ++ msg))

end Sha512

/-! ## Concrete libraries -/

/-- Lower-case hexadecimal digit of a value below 16. -/
def hexDigit (n : Nat) : Char := "0123456789abcdef".data.getD n '0'

/-- Lower-case hexadecimal text of a byte string. -/
def hexText (b : Bytes) : String :=
  String.mk (b.flatMap fun x => [hexDigit (x / 16), hexDigit (x % 16)])

/-- A 64-byte arithmetic mixing function standing in for a keyed hash. -/
def mix64 (key msg : Bytes) : Bytes :=
  (List.range 64).map fun j => (key.sum + 31 * msg.sum + 7 * j + msg.length) % 256

/-- A library small enough to evaluate: byte arithmetic stands in for the cryptographic
primitives, and every fallible function has an input on which it fails. -/
def demoLib : Lib where
  NewSeed mnemonic password := asciiBytes mnemonic ++ asciiBytes "mnemonic" ++ asciiBytes password
  hmacSha512 := mix64
  NewMasterKey seed :=
    if seed.length < 16 then .error "invalid seed"
    else
      let r := mix64 (asciiBytes "Bitcoin seed") seed
      .ok ⟨r.take 32, r.drop 32, 0, [0, 0, 0, 0], [0, 0, 0, 0], true⟩
  NewChildKey key idx :=
    if idx = 0xFFFFFFFF then .error "invalid child"
    else
      let r := mix64 key.ChainCode (0 :: key.Key ++ putUint32 idx)
      .ok ⟨r.take 32, r.drop 32, key.Depth + 1, putUint32 idx, key.Key.take 4, true⟩
  NewEntropy bitSize r :=
    if r.length < bitSize / 8 then .error "entropy unavailable" else .ok (r.take (bitSize / 8))
  NewMnemonic entropy :=
    if entropy.length = 16 then .ok (hexText entropy) else .error "invalid entropy length"
  ToECDSA d := if d.length = 32 then .ok d else .error "invalid length"
  FromECDSA priv := priv
  tronAddress priv := "T" ++ hexText (priv.take 4)
  ethAddress priv := "0x" ++ hexText (priv.take 4)
  hexEncodeToString := hexText
  hexutilEncode b := "0x" ++ hexText b
  PrivKeyFromBytes b := b
  SerializeCompressed priv := 2 :: priv
  Hash160 b := b.take 20
  NewAddressWitnessPubKeyHash h :=
    if h.length = 20 then .ok ("bc1q" ++ hexText (h.take 4)) else .error "invalid hash length"
  NewWIF priv := if priv = [] then .error "empty key" else .ok ("K" ++ hexText priv)
  ed25519Public seed := seed.reverse
  base58 := hexText

/-- The library `demoLib` with the reference HMAC-SHA512 in place of the mixing function. -/
def sha512Lib : Lib := { demoLib with hmacSha512 := Sha512.hmac }

/-! ## The derivation functions run in a process state

The same source functions once more, now with the state a Go call can read and
change passed explicitly: the random source, and the heap of HMAC objects that
`hmac.New` allocates and `Write` mutates. Library calls are state transformers. -/

/-- An HMAC object on the heap (the `hash.Hash` that `hmac.New` returns): its key and
the bytes written to it so far. -/
structure Mac where
  key : Bytes
  written : Bytes
deriving DecidableEq, Repr

/-- The process state outside the arguments of a call: the random source and the HMAC
objects allocated so far, earlier calls included. -/
structure World where
  rand : Rand
  macs : List Mac
deriving DecidableEq, Repr

/-- The library calls of the derivation functions and of `generateMnemonic` as state
transformers: each may read the process state and leave another one behind. -/
structure WLib where
  /-- Go `bip39.NewSeed(mnemonic, password)`. -/
  NewSeed : String → String → World → Bytes × World
  /-- Go `bip32.NewMasterKey(seed)`. -/
  NewMasterKey : Bytes → World → Except GoError Key × World
  /-- Go `key.NewChildKey(idx)`. -/
  NewChildKey : Key → Nat → World → Except GoError Key × World
  /-- Go `bip39.NewEntropy(bitSize)`. -/
  NewEntropy : Nat → World → Except GoError Bytes × World
  /-- Go `bip39.NewMnemonic(entropy)`. -/
  NewMnemonic : Bytes → World → Except GoError String × World

/-- The contract of the derivation primitives of the library: `NewSeed`, `NewMasterKey`
and `NewChildKey` return what the functions of `lib` return and leave the process state
as they found it. Nothing is asked of `NewEntropy` and `NewMnemonic`. -/
def WLib.Pure (wl : WLib) (lib : Lib) : Prop :=
  (∀ m pw w, wl.NewSeed m pw w = (lib.NewSeed m pw, w)) ∧
  (∀ seed w, wl.NewMasterKey seed w = (lib.NewMasterKey seed, w)) ∧
  (∀ key idx w, wl.NewChildKey key idx w = (lib.NewChildKey key idx, w))

/-- Go `hmac.New(sha512.New, key)`: a fresh object at the end of the heap; the handle is
its position. -/
def hmacNew (key : Bytes) (w : World) : Nat × World :=
  (w.macs.length, { w with macs := w.macs ++ [⟨key, []⟩] })

/-- Go `h.Write(data)`: the object behind the handle gets `data` appended. -/
def macWrite (h : Nat) (data : Bytes) (w : World) : World :=
  match w.macs[h]? with
  | some m => { w with macs := w.macs.set h ⟨m.key, m.written ++ data⟩ }
  | none => w

/-- Go `h.Sum(nil)`: the MAC of everything written to the object, under its key; the
object is left as it is. -/
def macSum (lib : Lib) (h : Nat) (w : World) : Bytes :=
  match w.macs[h]? with
  | some m => lib.hmacSha512 m.key m.written
  | none => []

/-- The loop of `deriveKey` (lines 337-344) in a process state. -/
def deriveKeyLoopIn (wl : WLib) : Key → List Nat → World → (Bytes × Option GoError) × World
  | key, [], w => ((key.Key, none), w)
  | key, idx :: rest, w =>
    match wl.NewChildKey key idx w with
    | (.error err, w1) => (([], some err), w1)
    | (.ok child, w1) => deriveKeyLoopIn wl child rest w1

/-- Go `deriveKey(mnemonic, path)` (lines 325-345) in a process state. -/
def deriveKeyIn (wl : WLib) (mnemonic : String) (path : List Nat) (w : World) :
    (Bytes × Option GoError) × World :=
  match wl.NewSeed mnemonic "" w with
  | (seed, w1) =>
    match wl.NewMasterKey seed w1 with
    | (.error err, w2) => (([], some err), w2)
    | (.ok masterKey, w2) => deriveKeyLoopIn wl masterKey path w2

/-- The loop of `deriveEd25519Key` (lines 360-372) in a process state: every turn
allocates its own HMAC object `h`. -/
def edLoopIn (lib : Lib) : Bytes → Bytes → List Nat → World → Run ((Bytes × Bytes) × World)
  | currentKey, currentChainCode, [], w => .ok ((currentKey, currentChainCode), w)
  | currentKey, currentChainCode, index :: rest, w =>
    match childData currentKey index with
    | .error p => .error p
    | .ok data =>
      match hmacNew currentChainCode w with
      | (h, w1) =>
        let w2 := macWrite h data w1
        let result := macSum lib h w2
        match sliceTo result 32 with
        | .error p => .error p
        | .ok key =>
          match sliceFrom result 32 with
          | .error p => .error p
          | .ok chainCode => edLoopIn lib key chainCode rest w2

/-- Go `deriveEd25519Key(mnemonic, path)` (lines 348-375) in a process state. -/
def deriveEd25519KeyIn (wl : WLib) (lib : Lib) (mnemonic : String) (path : List Nat)
    (w : World) : Run ((Bytes × Option GoError) × World) :=
  match wl.NewSeed mnemonic "" w with
  | (seed, w0) =>
    match hmacNew (asciiBytes "ed25519 seed") w0 with
    | (mac, w1) =>
      let w2 := macWrite mac seed w1
      let result := macSum lib mac w2
      match sliceTo result 32 with
      | .error p => .error p
      | .ok currentKey =>
        match sliceFrom result 32 with
        | .error p => .error p
        | .ok currentChainCode =>
          match edLoopIn lib currentKey currentChainCode path w2 with
          | .error p => .error p
          | .ok (st, w3) => .ok ((st.1, none), w3)

/-- Go `generateMnemonic()` (lines 316-322) in a process state. -/
def generateMnemonicIn (wl : WLib) (w : World) : (String × Option GoError) × World :=
  match wl.NewEntropy 128 w with
  | (.error err, w1) => (("", some err), w1)
  | (.ok entropy, w1) =>
    match wl.NewMnemonic entropy w1 with
    | (.error err, w2) => (("", some err), w2)
    | (.ok mnemonic, w2) => ((mnemonic, none), w2)

/-- The evaluable library as state transformers: `NewEntropy` consumes bytes of the
random source, the other calls leave the state alone. -/
def demoWLib : WLib where
  NewSeed m pw w := (demoLib.NewSeed m pw, w)
  NewMasterKey seed w := (demoLib.NewMasterKey seed, w)
  NewChildKey key idx w := (demoLib.NewChildKey key idx, w)
  NewEntropy bitSize w :=
    (demoLib.NewEntropy bitSize w.rand, { w with rand := w.rand.drop (bitSize / 8) })
  NewMnemonic entropy w := (demoLib.NewMnemonic entropy, w)

/-! ## Lemmas on the Ed25519 derivation -/

theorem putUint32_eq_bigEndian32 (v : Nat) : putUint32 v = bigEndian32 v := by
  simp [putUint32, bigEndian32, Nat.shiftRight_eq_div_pow]

theorem childData_of_length (k : Bytes) (i : Nat) (hk : k.length = 32) :
    childData k i = .ok (0x00 :: k ++ putUint32 i) := by
  simp [childData, setByte, copyInto, putUint32From, bind, Except.bind, hk,
    List.replicate, List.take_of_length_le, putUint32]

theorem Sha512.bigEndian_length (n v : Nat) : (Sha512.bigEndian n v).length = n := by
  induction n with
  | zero => rfl
  | succ n ih => simp [Sha512.bigEndian, ih]

theorem Sha512.digest_length (msg : Bytes) : (Sha512.digest msg).length = 64 := by
  simp [Sha512.digest, Sha512.bigEndian_length]

theorem Sha512.hmac_length (key msg : Bytes) : (Sha512.hmac key msg).length = 64 := by
  simp [Sha512.hmac, Sha512.digest_length]

theorem hmac64_sha512Lib : Hmac64 sha512Lib := fun key msg => Sha512.hmac_length key msg

theorem sliceTo_of_length (r : Bytes) (h : r.length = 64) : sliceTo r 32 = .ok (r.take 32) := by
  simp [sliceTo, h]

theorem sliceFrom_of_length (r : Bytes) (h : r.length = 64) :
    sliceFrom r 32 = .ok (r.drop 32) := by
  simp [sliceFrom, h]

theorem splitHalves_length (r : Bytes) (h : r.length = 64) :
    (splitHalves r).1.length = 32 ∧ (splitHalves r).2.length = 32 := by
  simp [splitHalves, h]

theorem masterPair_length (lib : Lib) (h : Hmac64 lib) (m : String) :
    (masterPair lib m).1.length = 32 ∧ (masterPair lib m).2.length = 32 :=
  splitHalves_length _ (h _ _)

theorem childPair_length (lib : Lib) (h : Hmac64 lib) (s : Bytes × Bytes) (i : Nat) :
    (childPair lib s i).1.length = 32 ∧ (childPair lib s i).2.length = 32 :=
  splitHalves_length _ (h _ _)

theorem foldl_childPair_length (lib : Lib) (h : Hmac64 lib) (p : List Nat) :
    ∀ s : Bytes × Bytes, s.1.length = 32 → s.2.length = 32 →
      (p.foldl (childPair lib) s).1.length = 32 ∧ (p.foldl (childPair lib) s).2.length = 32 := by
  induction p with
  | nil => intro s h1 h2; exact ⟨h1, h2⟩
  | cons i rest ih =>
    intro s _ _
    exact ih _ (childPair_length lib h s i).1 (childPair_length lib h s i).2

/-- The loop computes the left fold of `childPair` and writes `childMessages`. -/
theorem edLoop_eq (lib : Lib) (h : Hmac64 lib) (p : List Nat) :
    ∀ st : EdState, st.currentKey.length = 32 →
      edLoop lib st p =
        .ok ⟨(p.foldl (childPair lib) (st.currentKey, st.currentChainCode)).1,
             (p.foldl (childPair lib) (st.currentKey, st.currentChainCode)).2,
             st.written ++ childMessages lib (st.currentKey, st.currentChainCode) p⟩ := by
  induction p with
  | nil => intro st _; simp [edLoop, childMessages]
  | cons i rest ih =>
    intro st hk
    have hlen := h st.currentChainCode (0x00 :: st.currentKey ++ putUint32 i)
    simp only [edLoop, childData_of_length _ _ hk, bind, Except.bind,
      sliceTo_of_length _ hlen, sliceFrom_of_length _ hlen]
    rw [ih _ (by show (List.take 32 _).length = 32; rw [List.length_take, hlen]; rfl)]
    simp [childPair, splitHalves, childMessages, putUint32_eq_bigEndian32]

theorem edMaster_eq (lib : Lib) (h : Hmac64 lib) (m : String) :
    edMaster lib m = .ok ⟨(masterPair lib m).1, (masterPair lib m).2, []⟩ := by
  have hlen := h (asciiBytes "ed25519 seed") (lib.NewSeed m "")
  simp only [edMaster, bind, Except.bind, sliceTo_of_length _ hlen, sliceFrom_of_length _ hlen]
  rfl

theorem edRun_eq (lib : Lib) (h : Hmac64 lib) (m : String) (p : List Nat) :
    edRun lib m p =
      .ok ⟨(p.foldl (childPair lib) (masterPair lib m)).1,
           (p.foldl (childPair lib) (masterPair lib m)).2,
           childMessages lib (masterPair lib m) p⟩ := by
  simp only [edRun, edMaster_eq lib h m, bind, Except.bind]
  rw [edLoop_eq lib h p _ (masterPair_length lib h m).1]
  simp

theorem deriveEd25519Key_eq (lib : Lib) (h : Hmac64 lib) (m : String) (p : List Nat) :
    deriveEd25519Key lib m p = .ok ((p.foldl (childPair lib) (masterPair lib m)).1, none) := by
  simp only [deriveEd25519Key, edRun_eq lib h m p, bind, Except.bind]
  rfl

theorem or_hardened_of_hardened (i : Nat) (h1 : 0x80000000 ≤ i) (h2 : i < 2 ^ 32) :
    i ||| 0x80000000 = i := by
  have hr : i - 2 ^ 31 < 2 ^ 31 := by omega
  have hi : i = 2 ^ 31 * 1 ||| (i - 2 ^ 31) := by
    rw [← Nat.mul_add_lt_is_or hr 1]; omega
  have h31 : (0x80000000 : Nat) = 2 ^ 31 * 1 := by norm_num
  rw [h31]
  apply Nat.eq_of_testBit_eq
  intro j
  rw [Nat.testBit_or]
  conv_lhs => rw [hi]
  conv_rhs => rw [hi]
  rw [Nat.testBit_or]
  cases (2 ^ 31 * 1).testBit j <;> simp

theorem or_hardened_of_lt (i : Nat) (h : i < 0x80000000) : i ||| 0x80000000 = i + 2 ^ 31 := by
  have hr : i < 2 ^ 31 := by omega
  have := Nat.mul_add_lt_is_or hr 1
  rw [Nat.or_comm]
  have h31 : (0x80000000 : Nat) = 2 ^ 31 * 1 := by norm_num
  rw [h31, ← this]; omega

theorem bigEndian32_ne_of_lt (i : Nat) (h : i < 0x80000000) :
    bigEndian32 i ≠ bigEndian32 (i ||| 0x80000000) := by
  rw [or_hardened_of_lt i h]
  intro heq
  simp only [bigEndian32, List.cons.injEq] at heq
  omega

/-! ## Published vectors for the reference HMAC-SHA512 and the loop -/

/-- SLIP-0010 test vector 1 for ed25519, chain `m`: the master HMAC of the seed
`000102030405060708090a0b0c0d0e0f`. -/
theorem Sha512.hmac_slip10_master :
    Sha512.hmac (asciiBytes "ed25519 seed") (List.range 16) =
      [0x2b, 0x4b, 0xe7, 0xf1, 0x9e, 0xe2, 0x7b, 0xbf, 0x30, 0xc6, 0x67, 0xb6, 0x42, 0xd5,
       0xf4, 0xaa, 0x69, 0xfd, 0x16, 0x98, 0x72, 0xf8, 0xfc, 0x30, 0x59, 0xc0, 0x8e, 0xba,
       0xe2, 0xeb, 0x19, 0xe7,
       0x90, 0x04, 0x6a, 0x93, 0xde, 0x53, 0x80, 0xa7, 0x2b, 0x5e, 0x45, 0x01, 0x07, 0x48,
       0x56, 0x7d, 0x5e, 0xa0, 0x2b, 0xbf, 0x65, 0x22, 0xf9, 0x79, 0xe0, 0x5c, 0x0d, 0x8d,
       0x8c, 0xa9, 0xff, 0xfb] := by
  decide

/-- SLIP-0010 test vector 1 for ed25519, chain `m/0'`: one turn of the loop of
`deriveEd25519Key` from the master pair, over the reference HMAC-SHA512. -/
theorem edLoop_slip10_first_child :
    (edLoop sha512Lib
      ⟨[0x2b, 0x4b, 0xe7, 0xf1, 0x9e, 0xe2, 0x7b, 0xbf, 0x30, 0xc6, 0x67, 0xb6, 0x42, 0xd5,
        0xf4, 0xaa, 0x69, 0xfd, 0x16, 0x98, 0x72, 0xf8, 0xfc, 0x30, 0x59, 0xc0, 0x8e, 0xba,
        0xe2, 0xeb, 0x19, 0xe7],
       [0x90, 0x04, 0x6a, 0x93, 0xde, 0x53, 0x80, 0xa7, 0x2b, 0x5e, 0x45, 0x01, 0x07, 0x48,
        0x56, 0x7d, 0x5e, 0xa0, 0x2b, 0xbf, 0x65, 0x22, 0xf9, 0x79, 0xe0, 0x5c, 0x0d, 0x8d,
        0x8c, 0xa9, 0xff, 0xfb], []⟩ [0x80000000]).map (fun st => (st.currentKey, st.currentChainCode)) =
    .ok ([0x68, 0xe0, 0xfe, 0x46, 0xdf, 0xb6, 0x7e, 0x36, 0x8c, 0x75, 0x37, 0x9a, 0xce, 0xc5,
          0x91, 0xda, 0xd1, 0x9d, 0xf3, 0xcd, 0xe2, 0x6e, 0x63, 0xb9, 0x3a, 0x8e, 0x70, 0x4f,
          0x1d, 0xad, 0xe7, 0xa3],
         [0x8b, 0x59, 0xaa, 0x11, 0x38, 0x0b, 0x62, 0x4e, 0x81, 0x50, 0x7a, 0x27, 0xfe, 0xdd,
          0xa5, 0x9f, 0xea, 0x6d, 0x0b, 0x77, 0x9a, 0x77, 0x89, 0x18, 0xa2, 0xfd, 0x35, 0x90,
          0xe1, 0x6e, 0x9c, 0x69]) := by
  decide

theorem setByte_ok (s : Bytes) (i b : Nat) (h : i < s.length) :
    ∃ d, setByte s i b = .ok d ∧ d.length = s.length := by
  exact ⟨s.set i b, by simp [setByte, h], by simp⟩

theorem copyInto_ok (dst : Bytes) (lo hi : Nat) (src : Bytes) (h1 : lo ≤ hi)
    (h2 : hi ≤ dst.length) : ∃ d, copyInto dst lo hi src = .ok d ∧ d.length = dst.length := by
  refine ⟨dst.take lo ++ src.take (min (hi - lo) src.length) ++
    dst.drop (lo + min (hi - lo) src.length), ?_, ?_⟩
  · simp only [copyInto, h1, h2, and_self, if_true]
  · simp only [List.length_append, List.length_take, List.length_drop]
    omega

theorem putUint32From_ok (dst : Bytes) (lo v : Nat) (h : lo + 4 ≤ dst.length) :
    ∃ d, putUint32From dst lo v = .ok d ∧ d.length = dst.length := by
  have h1 : lo ≤ dst.length := by omega
  have h2 : 4 ≤ dst.length - lo := by omega
  refine ⟨dst.take lo ++ putUint32 v ++ dst.drop (lo + 4), ?_, ?_⟩
  · simp only [putUint32From, h1, h2, if_true]
  · simp only [List.length_append, List.length_take, List.length_drop, putUint32,
      List.length_cons, List.length_nil]
    omega

/-- The message construction of a child step never leaves its 37-byte buffer, whatever
the length of the key copied into it. -/
theorem childData_total (k : Bytes) (i : Nat) :
    ∃ data, childData k i = .ok data ∧ data.length = 37 := by
  obtain ⟨d1, e1, l1⟩ := setByte_ok (List.replicate 37 0) 0 0x00 (by simp)
  obtain ⟨d2, e2, l2⟩ := copyInto_ok d1 1 33 k (by omega) (by simp [l1])
  obtain ⟨d3, e3, l3⟩ := putUint32From_ok d2 33 i (by simp [l2, l1])
  refine ⟨d3, ?_, by simp [l3, l2, l1]⟩
  simp only [childData, e1, e2, e3, bind, Except.bind]

theorem edLoop_append (lib : Lib) (q rest : List Nat) :
    ∀ st : EdState, edLoop lib st (q ++ rest) =
      (edLoop lib st q).bind (fun st1 => edLoop lib st1 rest) := by
  induction q with
  | nil => intro st; simp [edLoop, Except.bind]
  | cons i q ih =>
    intro st
    simp only [List.cons_append, edLoop, bind]
    cases childData st.currentKey i with
    | error e => simp [Except.bind]
    | ok data =>
      simp only [Except.bind]
      cases sliceTo (lib.hmacSha512 st.currentChainCode data) 32 with
      | error e => simp
      | ok k =>
        cases sliceFrom (lib.hmacSha512 st.currentChainCode data) 32 with
        | error e => simp
        | ok c => simpa [Except.bind] using ih _

theorem foldl_childPair_eq_slip10 (lib : Lib) (p : List Nat)
    (hp : ∀ i ∈ p, 0x80000000 ≤ i ∧ i < 2 ^ 32) :
    ∀ s : Bytes × Bytes, p.foldl (childPair lib) s = p.foldl (slip10ChildPair lib) s := by
  induction p with
  | nil => intro s; rfl
  | cons i rest ih =>
    intro s
    have hi := hp i (List.mem_cons_self i rest)
    have hstep : childPair lib s i = slip10ChildPair lib s i := by
      simp only [childPair, slip10ChildPair, or_hardened_of_hardened i hi.1 hi.2]
    simp only [List.foldl_cons, hstep]
    exact ih (fun j hj => hp j (List.mem_cons_of_mem i hj)) _

theorem childMessages_ne_slip10Messages (lib : Lib) (p : List Nat)
    (hall : ∀ i ∈ p, i < 2 ^ 32) (hex : ∃ i ∈ p, i < 0x80000000) :
    ∀ s : Bytes × Bytes, childMessages lib s p ≠ slip10Messages lib s p := by
  induction p with
  | nil => obtain ⟨i, hi, _⟩ := hex; cases hi
  | cons i rest ih =>
    intro s heq
    simp only [childMessages, slip10Messages, List.cons.injEq, List.append_cancel_left_eq,
      true_and] at heq
    by_cases hlt : i < 0x80000000
    · exact bigEndian32_ne_of_lt i hlt heq.1
    · have hi32 := hall i (List.mem_cons_self i rest)
      have hor := or_hardened_of_hardened i (by omega) hi32
      have hstep : slip10ChildPair lib s i = childPair lib s i := by
        simp only [childPair, slip10ChildPair, hor]
      rw [hstep] at heq
      obtain ⟨j, hj, hjlt⟩ := hex
      have hjrest : j ∈ rest := by
        rcases List.mem_cons.mp hj with h | h
        · exact absurd (h ▸ hjlt) hlt
        · exact h
      exact ih (fun k hk => hall k (List.mem_cons_of_mem i hk)) ⟨j, hjrest, hjlt⟩ _ heq.2

/-! ## Claims on `deriveEd25519Key` -/

/-- C1, as the code behaves: for every mnemonic and every path that contains an index
below 0x80000000, `deriveEd25519Key` (with 64-byte HMAC outputs) returns a nil error and
the 32-byte key derived from that path with every index encoded as given. -/
theorem deriveEd25519Key_accepts_nonHardened (lib : Lib) (h : Hmac64 lib) (m : String)
    (p : List Nat) (_hp : ∃ i ∈ p, i < 0x80000000) :
    ∃ key, deriveEd25519Key lib m p = .ok (key, none) ∧ key.length = 32 ∧
      key = (p.foldl (childPair lib) (masterPair lib m)).1 :=
  ⟨_, deriveEd25519Key_eq lib h m p,
    (foldl_childPair_length lib h p _ (masterPair_length lib h m).1
      (masterPair_length lib h m).2).1, rfl⟩

/-- C1 witness: the reference HMAC-SHA512 and the path `[44', 0]`. -/
theorem deriveEd25519Key_accepts_nonHardened_witness :
    Hmac64 sha512Lib ∧ (∃ i ∈ [0x8000002C, 0], i < 0x80000000) ∧
    ∃ key, deriveEd25519Key sha512Lib "abandon about" [0x8000002C, 0] = .ok (key, none) ∧
      key.length = 32 ∧
      key = ([0x8000002C, 0].foldl (childPair sha512Lib) (masterPair sha512Lib "abandon about")).1 :=
  ⟨hmac64_sha512Lib, ⟨0, by decide, by decide⟩,
    deriveEd25519Key_accepts_nonHardened sha512Lib hmac64_sha512Lib "abandon about"
      [0x8000002C, 0] ⟨0, by decide, by decide⟩⟩

/-- C1 counterexample: on the path `[0]`, whose only index is not hardened,
`deriveEd25519Key` returns a key and a nil error. -/
theorem deriveEd25519Key_nonHardened_returns_key :
    deriveEd25519Key sha512Lib
      "abandon abandon abandon abandon abandon abandon abandon abandon abandon abandon abandon about"
      [0] =
    .ok ([35, 243, 166, 99, 135, 36, 160, 178, 21, 171, 197, 192, 180, 54, 4, 252, 152, 175, 76,
          123, 236, 232, 96, 247, 1, 31, 97, 73, 69, 90, 42, 157], none) := by
  decide

/-- C2, as the code behaves: for every 32-byte parent key, parent chain code and uint32
index, the message of one child step is the 37 bytes 0x00, the parent key, and the
big-endian encoding of the index as given; it is what the step writes to the HMAC. The
encoded index is that of `index | 0x80000000` when the index is hardened, and differs
from it when the index is not. -/
theorem childData_encodes_index_as_given (lib : Lib) (h : Hmac64 lib) (key cc : Bytes)
    (i : Nat) (hk : key.length = 32) (hi : i < 2 ^ 32) :
    childData key i = .ok (0x00 :: key ++ bigEndian32 i) ∧
    (0x00 :: key ++ bigEndian32 i).length = 37 ∧
    (∃ st, edLoop lib ⟨key, cc, []⟩ [i] = .ok st ∧
      st.written = [0x00 :: key ++ bigEndian32 i]) ∧
    (0x80000000 ≤ i → bigEndian32 i = bigEndian32 (i ||| 0x80000000)) ∧
    (i < 0x80000000 → bigEndian32 i ≠ bigEndian32 (i ||| 0x80000000)) := by
  refine ⟨?_, ?_, ?_, ?_, ?_⟩
  · rw [childData_of_length key i hk, putUint32_eq_bigEndian32]
  · simp [bigEndian32, hk]
  · refine ⟨_, edLoop_eq lib h [i] ⟨key, cc, []⟩ hk, ?_⟩
    simp [childMessages]
  · intro hge; rw [or_hardened_of_hardened i hge hi]
  · exact bigEndian32_ne_of_lt i

/-- C2 witness: a 32-byte key and the non-hardened index 5. -/
theorem childData_encodes_index_as_given_witness :
    childData (List.replicate 32 7) 5 = .ok (0x00 :: List.replicate 32 7 ++ [0, 0, 0, 5]) ∧
    bigEndian32 5 ≠ bigEndian32 (5 ||| 0x80000000) :=
  have w := childData_encodes_index_as_given sha512Lib hmac64_sha512Lib
    (List.replicate 32 7) (List.replicate 32 9) 5 (by decide) (by decide)
  ⟨w.1, w.2.2.2.2 (by decide)⟩

/-- C2 counterexample: for the index 0 the message ends in `00 00 00 00`, not in the
encoding `80 00 00 00` of `0 | 0x80000000`. -/
theorem childData_index_zero_not_forced :
    childData (List.replicate 32 7) 0 = .ok (0x00 :: List.replicate 32 7 ++ [0, 0, 0, 0]) ∧
    bigEndian32 (0 ||| 0x80000000) = [128, 0, 0, 0] ∧
    childData (List.replicate 32 7) 0 ≠
      .ok (0x00 :: List.replicate 32 7 ++ bigEndian32 (0 ||| 0x80000000)) := by
  decide

/-- C3: `deriveEd25519Key m p` returns the key component of the left fold over `p` of the
child step from the master pair; for the empty path that is the first 32 bytes of the
master HMAC, and for `p ++ [i]` it is one step applied to the state reached after `p`. -/
theorem deriveEd25519Key_is_left_fold (lib : Lib) (h : Hmac64 lib) (m : String)
    (p : List Nat) :
    deriveEd25519Key lib m p = .ok ((p.foldl (childPair lib) (masterPair lib m)).1, none) ∧
    deriveEd25519Key lib m [] =
      .ok ((lib.hmacSha512 (asciiBytes "ed25519 seed") (lib.NewSeed m "")).take 32, none) ∧
    ∀ i, deriveEd25519Key lib m (p ++ [i]) =
      .ok ((childPair lib (p.foldl (childPair lib) (masterPair lib m)) i).1, none) := by
  refine ⟨deriveEd25519Key_eq lib h m p, deriveEd25519Key_eq lib h m [], fun i => ?_⟩
  rw [deriveEd25519Key_eq lib h m (p ++ [i]), List.foldl_append]
  rfl

/-- C3 witness: the reference HMAC-SHA512 and the Solana path. -/
theorem deriveEd25519Key_is_left_fold_witness :
    Hmac64 sha512Lib ∧
    deriveEd25519Key sha512Lib "abandon about" solanaPath =
      .ok ((solanaPath.foldl (childPair sha512Lib) (masterPair sha512Lib "abandon about")).1,
        none) :=
  ⟨hmac64_sha512Lib,
    (deriveEd25519Key_is_left_fold sha512Lib hmac64_sha512Lib "abandon about" solanaPath).1⟩

theorem solanaPath_hardened : ∀ i ∈ solanaPath, 0x80000000 ≤ i ∧ i < 2 ^ 32 := by
  decide

theorem NewKeyFromSeed_of_length (lib : Lib) (seed : Bytes) (h : seed.length = 32) :
    NewKeyFromSeed lib seed = .ok (seed ++ lib.ed25519Public seed) := by
  simp [NewKeyFromSeed, h]

/-- The wallet `GenerateSolana` returns once the mnemonic is generated. -/
theorem GenerateSolana_of_mnemonic (lib : Lib) (h : Hmac64 lib) (r : Rand) (m : String)
    (hgm : generateMnemonic lib r = (m, none)) :
    GenerateSolana lib r =
      .ok (some ⟨"Solana",
        lib.base58 (((solanaPath.foldl (childPair lib) (masterPair lib m)).1 ++
          lib.ed25519Public (solanaPath.foldl (childPair lib) (masterPair lib m)).1).drop 32),
        lib.base58 ((solanaPath.foldl (childPair lib) (masterPair lib m)).1 ++
          lib.ed25519Public (solanaPath.foldl (childPair lib) (masterPair lib m)).1),
        m⟩, none) := by
  have hlen : ((solanaPath.foldl (childPair lib) (masterPair lib m)).1).length = 32 :=
    (foldl_childPair_length lib h solanaPath _ (masterPair_length lib h m).1
      (masterPair_length lib h m).2).1
  simp only [GenerateSolana, hgm, deriveEd25519Key_eq lib h m solanaPath,
    NewKeyFromSeed_of_length lib _ hlen]

theorem GenerateSolana_of_error (lib : Lib) (r : Rand) (m : String) (e : GoError)
    (hgm : generateMnemonic lib r = (m, some e)) :
    GenerateSolana lib r = .ok (none, some e) := by
  simp only [GenerateSolana, hgm]

theorem GenerateSolana_no_panic (lib : Lib) (h : Hmac64 lib) (r : Rand) :
    ∃ out, GenerateSolana lib r = .ok out := by
  rcases hgm : generateMnemonic lib r with ⟨m, _ | e⟩
  · exact ⟨_, GenerateSolana_of_mnemonic lib h r m hgm⟩
  · exact ⟨_, GenerateSolana_of_error lib r m e hgm⟩

/-- C9: with 64-byte HMAC-SHA512 outputs, for every mnemonic and every path (the empty one
included) `deriveEd25519Key` returns a nil error and a 32-byte key without a slice
leaving its bounds; at every step of the path the key and the chain code have 32 bytes;
the 37-byte message buffer is never overrun; and `GenerateSolana` never reaches the panic
of `ed25519.NewKeyFromSeed`. -/
theorem deriveEd25519Key_in_bounds (lib : Lib) (h : Hmac64 lib) (m : String) (p : List Nat)
    (r : Rand) :
    (∃ key, deriveEd25519Key lib m p = .ok (key, none) ∧ key.length = 32) ∧
    (∃ key, deriveEd25519Key lib m [] = .ok (key, none) ∧ key.length = 32) ∧
    (∀ q rest, p = q ++ rest →
      ∃ st, edRun lib m q = .ok st ∧ st.currentKey.length = 32 ∧
        st.currentChainCode.length = 32 ∧ edRun lib m p = edLoop lib st rest) ∧
    (∀ k i, ∃ data, childData k i = .ok data ∧ data.length = 37) ∧
    (∃ key priv, deriveEd25519Key lib m solanaPath = .ok (key, none) ∧
      NewKeyFromSeed lib key = .ok priv) ∧
    (∃ out, GenerateSolana lib r = .ok out) := by
  have hlen : ∀ q : List Nat, ((q.foldl (childPair lib) (masterPair lib m)).1).length = 32 ∧
      ((q.foldl (childPair lib) (masterPair lib m)).2).length = 32 :=
    fun q => foldl_childPair_length lib h q _ (masterPair_length lib h m).1
      (masterPair_length lib h m).2
  refine ⟨⟨_, deriveEd25519Key_eq lib h m p, (hlen p).1⟩,
    ⟨_, deriveEd25519Key_eq lib h m [], (hlen []).1⟩, ?_, childData_total,
    ⟨_, _, deriveEd25519Key_eq lib h m solanaPath,
      NewKeyFromSeed_of_length lib _ (hlen solanaPath).1⟩,
    GenerateSolana_no_panic lib h r⟩
  intro q rest hp
  refine ⟨_, edRun_eq lib h m q, (hlen q).1, (hlen q).2, ?_⟩
  subst hp
  simp only [edRun, edMaster_eq lib h m, bind, Except.bind]
  rw [edLoop_append, edLoop_eq lib h q _ (masterPair_length lib h m).1]
  simp [Except.bind]

/-- C9 witness: the reference HMAC-SHA512, which always outputs 64 bytes. -/
theorem deriveEd25519Key_in_bounds_witness :
    Hmac64 sha512Lib ∧
    (∃ key, deriveEd25519Key sha512Lib "abandon about" [0x8000002C, 7] = .ok (key, none) ∧
      key.length = 32) ∧
    (∃ out, GenerateSolana sha512Lib (List.range 16) = .ok out) :=
  have w := deriveEd25519Key_in_bounds sha512Lib hmac64_sha512Lib "abandon about"
    [0x8000002C, 7] (List.range 16)
  ⟨hmac64_sha512Lib, w.1, w.2.2.2.2.2⟩

/-- C10: for every mnemonic and every path of uint32 indices that are all at least
0x80000000, `deriveEd25519Key` returns the key of the SLIP-0010 reference derivation,
which encodes each index as `index | 0x80000000`; this holds for the Solana path. For a
path of uint32 indices with a non-hardened one, the messages the two derivations feed to
their HMACs differ. -/
theorem deriveEd25519Key_refines_slip10 (lib : Lib) (h : Hmac64 lib) (m : String)
    (p : List Nat) :
    ((∀ i ∈ p, 0x80000000 ≤ i ∧ i < 2 ^ 32) →
      deriveEd25519Key lib m p = .ok (slip10Derive lib m p, none)) ∧
    deriveEd25519Key lib m solanaPath = .ok (slip10Derive lib m solanaPath, none) ∧
    ((∀ i ∈ p, i < 2 ^ 32) → (∃ i ∈ p, i < 0x80000000) →
      ∃ st, edRun lib m p = .ok st ∧ st.written ≠ slip10Messages lib (masterPair lib m) p) := by
  refine ⟨fun hp => ?_, ?_, fun hall hex => ?_⟩
  · rw [deriveEd25519Key_eq lib h m p, slip10Derive, foldl_childPair_eq_slip10 lib p hp]
  · rw [deriveEd25519Key_eq lib h m solanaPath, slip10Derive,
      foldl_childPair_eq_slip10 lib solanaPath solanaPath_hardened]
  · exact ⟨_, edRun_eq lib h m p, childMessages_ne_slip10Messages lib p hall hex _⟩

/-- C10 witness: the reference HMAC-SHA512; the hardened path `[44', 501']` gives the
SLIP-0010 key, the path `[44', 0]` is fed another message. -/
theorem deriveEd25519Key_refines_slip10_witness :
    Hmac64 sha512Lib ∧
    deriveEd25519Key sha512Lib "abandon about" [0x8000002C, 0x800001F5] =
      .ok (slip10Derive sha512Lib "abandon about" [0x8000002C, 0x800001F5], none) ∧
    (∃ st, edRun sha512Lib "abandon about" [0x8000002C, 0] = .ok st ∧
      st.written ≠ slip10Messages sha512Lib (masterPair sha512Lib "abandon about")
        [0x8000002C, 0]) :=
  ⟨hmac64_sha512Lib,
    (deriveEd25519Key_refines_slip10 sha512Lib hmac64_sha512Lib "abandon about"
      [0x8000002C, 0x800001F5]).1 (by decide),
    (deriveEd25519Key_refines_slip10 sha512Lib hmac64_sha512Lib "abandon about"
      [0x8000002C, 0]).2.2 (by decide) ⟨0, by decide, by decide⟩⟩

/-! ## Lemmas on `deriveKey` -/

theorem foldChildKeys_nil (lib : Lib) (k : Key) : foldChildKeys lib k [] = .ok k := rfl

theorem foldChildKeys_cons (lib : Lib) (k : Key) (i : Nat) (rest : List Nat) :
    foldChildKeys lib k (i :: rest) =
      match lib.NewChildKey k i with
      | .error e => .error e
      | .ok child => foldChildKeys lib child rest := by
  simp only [foldChildKeys, List.foldlM_cons, bind, Except.bind]
  cases lib.NewChildKey k i <;> rfl

theorem deriveKeyLoop_of_fold (lib : Lib) (p : List Nat) :
    ∀ k0 k : Key, foldChildKeys lib k0 p = .ok k →
      deriveKeyLoop lib k0 p = ⟨k.Key, none, p⟩ := by
  induction p with
  | nil =>
    intro k0 k hk
    rw [foldChildKeys_nil] at hk
    cases hk
    rfl
  | cons i rest ih =>
    intro k0 k hk
    rw [foldChildKeys_cons] at hk
    cases hc : lib.NewChildKey k0 i with
    | error e => rw [hc] at hk; cases hk
    | ok child =>
      rw [hc] at hk
      simp only [deriveKeyLoop, hc, ih child k hk]

theorem deriveKeyLoop_of_first_error (lib : Lib) (q : List Nat) (i : Nat) (rest : List Nat)
    (e : GoError) :
    ∀ k0 k : Key, foldChildKeys lib k0 q = .ok k → lib.NewChildKey k i = .error e →
      deriveKeyLoop lib k0 (q ++ i :: rest) = ⟨[], some e, q ++ [i]⟩ := by
  induction q with
  | nil =>
    intro k0 k hk he
    rw [foldChildKeys_nil] at hk
    cases hk
    simp only [List.nil_append, deriveKeyLoop, he]
  | cons j q ih =>
    intro k0 k hk he
    rw [foldChildKeys_cons] at hk
    cases hc : lib.NewChildKey k0 j with
    | error e1 => rw [hc] at hk; cases hk
    | ok child =>
      rw [hc] at hk
      have h := ih child k hk he
      show deriveKeyLoop lib k0 (j :: (q ++ i :: rest)) = _
      simp only [deriveKeyLoop, hc, h]
      rfl

theorem deriveKeyLoop_error_cases (lib : Lib) (p : List Nat) :
    ∀ k0 : Key, (deriveKeyLoop lib k0 p).err ≠ none →
      ∃ q i rest k e, p = q ++ i :: rest ∧ foldChildKeys lib k0 q = .ok k ∧
        lib.NewChildKey k i = .error e := by
  induction p with
  | nil => intro k0 h; exact absurd rfl h
  | cons j rest ih =>
    intro k0 h
    cases hc : lib.NewChildKey k0 j with
    | error e => exact ⟨[], j, rest, k0, e, rfl, rfl, hc⟩
    | ok child =>
      simp only [deriveKeyLoop, hc] at h
      obtain ⟨q, i, rest1, k, e, hp, hq, he⟩ := ih child h
      refine ⟨j :: q, i, rest1, k, e, by rw [hp]; rfl, ?_, he⟩
      rw [foldChildKeys_cons, hc]
      exact hq

theorem deriveKeyLoop_nil_key_of_error (lib : Lib) (p : List Nat) :
    ∀ k0 : Key, (deriveKeyLoop lib k0 p).err ≠ none → (deriveKeyLoop lib k0 p).key = [] := by
  induction p with
  | nil => intro k0 h; exact absurd rfl h
  | cons j rest ih =>
    intro k0 h
    cases hc : lib.NewChildKey k0 j with
    | error e => simp only [deriveKeyLoop, hc]
    | ok child =>
      simp only [deriveKeyLoop, hc] at h ⊢
      exact ih child h

theorem deriveKeyRun_of_master (lib : Lib) (m : String) (p : List Nat) (mk : Key)
    (hm : lib.NewMasterKey (lib.NewSeed m "") = .ok mk) :
    deriveKeyRun lib m p = deriveKeyLoop lib mk p := by
  simp only [deriveKeyRun, hm]

theorem deriveKeyRun_of_master_error (lib : Lib) (m : String) (p : List Nat) (e : GoError)
    (hm : lib.NewMasterKey (lib.NewSeed m "") = .error e) :
    deriveKeyRun lib m p = ⟨[], some e, []⟩ := by
  simp only [deriveKeyRun, hm]

/-! ## Claims on `deriveKey` -/

/-- C4: when the master key is created and every child step succeeds, `deriveKey m p`
returns the `Key` field of the extended key obtained by folding `NewChildKey` left to
right over `p`, in the order of `p`, from `NewMasterKey(NewSeed(m, ""))`, with a nil
error; the indices derived are exactly those of `p`, in order; for the empty path the
result is the master key's `Key`. -/
theorem deriveKey_is_fold_of_NewChildKey (lib : Lib) (m : String) (p : List Nat)
    (mk k : Key) (hm : lib.NewMasterKey (lib.NewSeed m "") = .ok mk)
    (hk : foldChildKeys lib mk p = .ok k) :
    deriveKey lib m p = (k.Key, none) ∧
    (deriveKeyRun lib m p).derived = p ∧
    deriveKey lib m [] = (mk.Key, none) := by
  have h1 := deriveKeyLoop_of_fold lib p mk k hk
  have h2 := deriveKeyLoop_of_fold lib [] mk mk rfl
  simp only [deriveKey, deriveKeyRun_of_master lib m _ mk hm, h1, h2, and_self]

/-- C5: `deriveKey` is fail-fast. It returns an error exactly when `NewMasterKey` fails
or some `NewChildKey` step along the path fails; a master failure is returned before any
index is derived; the first failing child step returns its error with no later index of
the path derived; and an error always comes with nil key bytes. -/
theorem deriveKey_fail_fast (lib : Lib) (m : String) (p : List Nat) :
    ((deriveKey lib m p).2 ≠ none ↔
      ((∃ e, lib.NewMasterKey (lib.NewSeed m "") = .error e) ∨
       (∃ mk q i rest k e, lib.NewMasterKey (lib.NewSeed m "") = .ok mk ∧
          p = q ++ i :: rest ∧ foldChildKeys lib mk q = .ok k ∧
          lib.NewChildKey k i = .error e))) ∧
    (∀ e, lib.NewMasterKey (lib.NewSeed m "") = .error e →
      deriveKeyRun lib m p = ⟨[], some e, []⟩) ∧
    (∀ mk q i rest k e, lib.NewMasterKey (lib.NewSeed m "") = .ok mk →
      p = q ++ i :: rest → foldChildKeys lib mk q = .ok k →
      lib.NewChildKey k i = .error e →
      deriveKeyRun lib m p = ⟨[], some e, q ++ [i]⟩) ∧
    ((deriveKey lib m p).2 ≠ none → (deriveKey lib m p).1 = []) := by
  refine ⟨⟨fun h => ?_, fun h => ?_⟩, fun e he => deriveKeyRun_of_master_error lib m p e he,
    fun mk q i rest k e hm hp hq he => ?_, fun h => ?_⟩
  · cases hm : lib.NewMasterKey (lib.NewSeed m "") with
    | error e => exact Or.inl ⟨e, rfl⟩
    | ok mk =>
      simp only [deriveKey, deriveKeyRun_of_master lib m p mk hm] at h
      obtain ⟨q, i, rest, k, e, hp, hq, he⟩ := deriveKeyLoop_error_cases lib p mk h
      exact Or.inr ⟨mk, q, i, rest, k, e, rfl, hp, hq, he⟩
  · rcases h with ⟨e, he⟩ | ⟨mk, q, i, rest, k, e, hm, hp, hq, he⟩
    · simp [deriveKey, deriveKeyRun_of_master_error lib m p e he]
    · subst hp
      simp [deriveKey, deriveKeyRun_of_master lib m _ mk hm,
        deriveKeyLoop_of_first_error lib q i rest e mk k hq he]
  · subst hp
    rw [deriveKeyRun_of_master lib m _ mk hm,
      deriveKeyLoop_of_first_error lib q i rest e mk k hq he]
  · cases hm : lib.NewMasterKey (lib.NewSeed m "") with
    | error e => simp [deriveKey, deriveKeyRun_of_master_error lib m p e hm]
    | ok mk =>
      simp only [deriveKey, deriveKeyRun_of_master lib m p mk hm] at h ⊢
      exact deriveKeyLoop_nil_key_of_error lib p mk h

/-- C4 witness: the evaluable library on the Tron path. -/
theorem deriveKey_is_fold_of_NewChildKey_witness :
    ∃ mk k, demoLib.NewMasterKey (demoLib.NewSeed "abandon about" "") = .ok mk ∧
      foldChildKeys demoLib mk tronPath = .ok k ∧
      deriveKey demoLib "abandon about" tronPath = (k.Key, none) :=
  ⟨_, _, rfl, rfl,
    (deriveKey_is_fold_of_NewChildKey demoLib "abandon about" tronPath _ _ rfl rfl).1⟩

/-- C5 witness: in the evaluable library the child step for index 0xFFFFFFFF fails; the
error of that step is returned, nil key bytes with it, and the index 5 after it is not
derived. -/
theorem deriveKey_fail_fast_witness :
    deriveKeyRun demoLib "abandon about" [0x8000002C, 0xFFFFFFFF, 5] =
      ⟨[], some "invalid child", [0x8000002C, 0xFFFFFFFF]⟩ ∧
    (deriveKey demoLib "abandon about" [0x8000002C, 0xFFFFFFFF, 5]).2 ≠ none :=
  have w := deriveKey_fail_fast demoLib "abandon about" [0x8000002C, 0xFFFFFFFF, 5]
  ⟨w.2.2.1 _ [0x8000002C] 0xFFFFFFFF [5] _ "invalid child" rfl rfl rfl rfl,
    w.1.mpr (Or.inr ⟨_, [0x8000002C], 0xFFFFFFFF, [5], _, "invalid child", rfl, rfl, rfl, rfl⟩)⟩

/-! ## Claims on the generators -/

theorem tronPath_eq : tronPath = [0x8000002C, 0x800000C3, 0x80000000, 0, 0] := by decide

theorem ethereumPath_eq : ethereumPath = [0x8000002C, 0x8000003C, 0x80000000, 0, 0] := by
  decide

theorem bscPath_eq : bscPath = [0x8000002C, 0x8000003C, 0x80000000, 0, 0] := by decide

theorem bitcoinPath_eq : bitcoinPath = [0x80000054, 0x80000000, 0x80000000, 0, 0] := by decide

theorem solanaPath_eq : solanaPath = [0x8000002C, 0x800001F5, 0x80000000, 0x80000000] := by
  decide

/-- C6: once the mnemonic `m` is generated, each generator's result is what follows from
the result of its derivation function on `m` and exactly the table's path, hardened
indices encoded as index + 0x80000000 without wrap-around in uint32: `deriveKey` on
[0x8000002C, 0x800000C3, 0x80000000, 0, 0] for Tron, on
[0x8000002C, 0x8000003C, 0x80000000, 0, 0] for Ethereum and BSC, on
[0x80000054, 0x80000000, 0x80000000, 0, 0] for Bitcoin, and `deriveEd25519Key` on
[0x8000002C, 0x800001F5, 0x80000000, 0x80000000] for Solana. Every index of the Solana
path is hardened, and each secp256k1 path has exactly its first three indices hardened
and its last two not. -/
theorem generator_paths (lib : Lib) (r : Rand) (m : String)
    (hgm : generateMnemonic lib r = (m, none)) :
    GenerateTron lib r =
      (match deriveKey lib m [0x8000002C, 0x800000C3, 0x80000000, 0, 0] with
       | (_, some err) => (none, some err)
       | (kb, none) =>
         match lib.ToECDSA kb with
         | .error err => (none, some err)
         | .ok priv =>
           (some ⟨"Tron", lib.tronAddress priv, lib.hexEncodeToString kb, m⟩, none)) ∧
    GenerateEthereum lib r =
      (match deriveKey lib m [0x8000002C, 0x8000003C, 0x80000000, 0, 0] with
       | (_, some err) => (none, some err)
       | (kb, none) =>
         match lib.ToECDSA kb with
         | .error err => (none, some err)
         | .ok priv =>
           (some ⟨"Ethereum", lib.ethAddress priv, lib.hexutilEncode (lib.FromECDSA priv), m⟩,
             none)) ∧
    GenerateBsc lib r =
      (match deriveKey lib m [0x8000002C, 0x8000003C, 0x80000000, 0, 0] with
       | (_, some err) => (none, some err)
       | (kb, none) =>
         match lib.ToECDSA kb with
         | .error err => (none, some err)
         | .ok priv =>
           (some ⟨"BSC", lib.ethAddress priv, lib.hexutilEncode (lib.FromECDSA priv), m⟩,
             none)) ∧
    GenerateBitcoin lib r =
      (match deriveKey lib m [0x80000054, 0x80000000, 0x80000000, 0, 0] with
       | (_, some err) => (none, some err)
       | (kb, none) =>
         match lib.NewAddressWitnessPubKeyHash
             (lib.Hash160 (lib.SerializeCompressed (lib.PrivKeyFromBytes kb))) with
         | .error err => (none, some err)
         | .ok addr =>
           match lib.NewWIF (lib.PrivKeyFromBytes kb) with
           | .error err => (none, some err)
           | .ok wif => (some ⟨"Bitcoin", addr, wif, m⟩, none)) ∧
    GenerateSolana lib r =
      (match deriveEd25519Key lib m [0x8000002C, 0x800001F5, 0x80000000, 0x80000000] with
       | .error p => .error p
       | .ok (_, some err) => .ok (none, some err)
       | .ok (kb, none) =>
         match NewKeyFromSeed lib kb with
         | .error p => .error p
         | .ok priv =>
           .ok (some ⟨"Solana", lib.base58 (priv.drop 32), lib.base58 priv, m⟩, none)) ∧
    tronPath = [0x8000002C, 0x800000C3, 0x80000000, 0, 0] ∧
    ethereumPath = [0x8000002C, 0x8000003C, 0x80000000, 0, 0] ∧
    bscPath = [0x8000002C, 0x8000003C, 0x80000000, 0, 0] ∧
    bitcoinPath = [0x80000054, 0x80000000, 0x80000000, 0, 0] ∧
    solanaPath = [0x8000002C, 0x800001F5, 0x80000000, 0x80000000] ∧
    tronPath = [0x80000000 + 44, 0x80000000 + 195, 0x80000000 + 0, 0, 0] ∧
    ethereumPath = [0x80000000 + 44, 0x80000000 + 60, 0x80000000 + 0, 0, 0] ∧
    bscPath = ethereumPath ∧
    bitcoinPath = [0x80000000 + 84, 0x80000000 + 0, 0x80000000 + 0, 0, 0] ∧
    solanaPath = [0x80000000 + 44, 0x80000000 + 501, 0x80000000 + 0, 0x80000000 + 0] ∧
    (∀ i ∈ solanaPath, isHardened i = true) ∧
    tronPath.map isHardened = [true, true, true, false, false] ∧
    ethereumPath.map isHardened = [true, true, true, false, false] ∧
    bscPath.map isHardened = [true, true, true, false, false] ∧
    bitcoinPath.map isHardened = [true, true, true, false, false] ∧
    (∀ p ∈ [tronPath, ethereumPath, bscPath, bitcoinPath, solanaPath], ∀ i ∈ p, i < 2 ^ 32) := by
  refine ⟨?_, ?_, ?_, ?_, ?_, by decide⟩
  · rw [← tronPath_eq]; simp only [GenerateTron, hgm]
  · rw [← ethereumPath_eq]; simp only [GenerateEthereum, hgm]
  · rw [← bscPath_eq]; simp only [GenerateBsc, hgm]
  · rw [← bitcoinPath_eq]; simp only [GenerateBitcoin, hgm]
  · rw [← solanaPath_eq]; simp only [GenerateSolana, hgm]

/-- C6 witness: with the evaluable library and sixteen bytes of entropy the mnemonic is
generated, and `GenerateTron` returns the wallet of the key `deriveKey` gives on the
Tron path. -/
theorem generator_paths_witness :
    generateMnemonic demoLib (List.range 16) = ("000102030405060708090a0b0c0d0e0f", none) ∧
    GenerateTron demoLib (List.range 16) =
      (match deriveKey demoLib "000102030405060708090a0b0c0d0e0f"
          [0x8000002C, 0x800000C3, 0x80000000, 0, 0] with
       | (_, some err) => (none, some err)
       | (kb, none) =>
         match demoLib.ToECDSA kb with
         | .error err => (none, some err)
         | .ok priv =>
           (some ⟨"Tron", demoLib.tronAddress priv, demoLib.hexEncodeToString kb,
             "000102030405060708090a0b0c0d0e0f"⟩, none)) :=
  ⟨by decide,
    (generator_paths demoLib (List.range 16) "000102030405060708090a0b0c0d0e0f"
      (by decide)).1⟩

theorem GenerateTron_success (lib : Lib) (r : Rand) (h : (GenerateTron lib r).2 = none) :
    ∃ m kb priv, generateMnemonic lib r = (m, none) ∧ deriveKey lib m tronPath = (kb, none) ∧
      lib.ToECDSA kb = .ok priv ∧
      GenerateTron lib r =
        (some ⟨"Tron", lib.tronAddress priv, lib.hexEncodeToString kb, m⟩, none) := by
  rcases hgm : generateMnemonic lib r with ⟨m, _ | e⟩
  · rcases hdk : deriveKey lib m tronPath with ⟨kb, _ | e⟩
    · cases hec : lib.ToECDSA kb with
      | error e => simp [GenerateTron, hgm, hdk, hec] at h
      | ok priv => exact ⟨m, kb, priv, rfl, hdk, hec, by simp only [GenerateTron, hgm, hdk, hec]⟩
    · simp [GenerateTron, hgm, hdk] at h
  · simp [GenerateTron, hgm] at h

theorem GenerateEthereum_success (lib : Lib) (r : Rand)
    (h : (GenerateEthereum lib r).2 = none) :
    ∃ m kb priv, generateMnemonic lib r = (m, none) ∧
      deriveKey lib m ethereumPath = (kb, none) ∧ lib.ToECDSA kb = .ok priv ∧
      GenerateEthereum lib r =
        (some ⟨"Ethereum", lib.ethAddress priv, lib.hexutilEncode (lib.FromECDSA priv), m⟩,
          none) := by
  rcases hgm : generateMnemonic lib r with ⟨m, _ | e⟩
  · rcases hdk : deriveKey lib m ethereumPath with ⟨kb, _ | e⟩
    · cases hec : lib.ToECDSA kb with
      | error e => simp [GenerateEthereum, hgm, hdk, hec] at h
      | ok priv =>
        exact ⟨m, kb, priv, rfl, hdk, hec, by simp only [GenerateEthereum, hgm, hdk, hec]⟩
    · simp [GenerateEthereum, hgm, hdk] at h
  · simp [GenerateEthereum, hgm] at h

theorem GenerateBsc_success (lib : Lib) (r : Rand) (h : (GenerateBsc lib r).2 = none) :
    ∃ m kb priv, generateMnemonic lib r = (m, none) ∧ deriveKey lib m bscPath = (kb, none) ∧
      lib.ToECDSA kb = .ok priv ∧
      GenerateBsc lib r =
        (some ⟨"BSC", lib.ethAddress priv, lib.hexutilEncode (lib.FromECDSA priv), m⟩,
          none) := by
  rcases hgm : generateMnemonic lib r with ⟨m, _ | e⟩
  · rcases hdk : deriveKey lib m bscPath with ⟨kb, _ | e⟩
    · cases hec : lib.ToECDSA kb with
      | error e => simp [GenerateBsc, hgm, hdk, hec] at h
      | ok priv => exact ⟨m, kb, priv, rfl, hdk, hec, by simp only [GenerateBsc, hgm, hdk, hec]⟩
    · simp [GenerateBsc, hgm, hdk] at h
  · simp [GenerateBsc, hgm] at h

theorem GenerateBitcoin_success (lib : Lib) (r : Rand)
    (h : (GenerateBitcoin lib r).2 = none) :
    ∃ m kb addr wif, generateMnemonic lib r = (m, none) ∧
      deriveKey lib m bitcoinPath = (kb, none) ∧
      lib.NewAddressWitnessPubKeyHash
        (lib.Hash160 (lib.SerializeCompressed (lib.PrivKeyFromBytes kb))) = .ok addr ∧
      lib.NewWIF (lib.PrivKeyFromBytes kb) = .ok wif ∧
      GenerateBitcoin lib r = (some ⟨"Bitcoin", addr, wif, m⟩, none) := by
  rcases hgm : generateMnemonic lib r with ⟨m, _ | e⟩
  · rcases hdk : deriveKey lib m bitcoinPath with ⟨kb, _ | e⟩
    · cases had : lib.NewAddressWitnessPubKeyHash
          (lib.Hash160 (lib.SerializeCompressed (lib.PrivKeyFromBytes kb))) with
      | error e => simp [GenerateBitcoin, hgm, hdk, had] at h
      | ok addr =>
        cases hw : lib.NewWIF (lib.PrivKeyFromBytes kb) with
        | error e => simp [GenerateBitcoin, hgm, hdk, had, hw] at h
        | ok wif =>
          exact ⟨m, kb, addr, wif, rfl, hdk, had, hw,
            by simp only [GenerateBitcoin, hgm, hdk, had, hw]⟩
    · simp [GenerateBitcoin, hgm, hdk] at h
  · simp [GenerateBitcoin, hgm] at h

theorem GenerateSolana_success (lib : Lib) (r : Rand) (x : Option Wallet)
    (h : GenerateSolana lib r = .ok (x, none)) :
    ∃ m kb priv, generateMnemonic lib r = (m, none) ∧
      deriveEd25519Key lib m solanaPath = .ok (kb, none) ∧
      NewKeyFromSeed lib kb = .ok priv ∧
      x = some ⟨"Solana", lib.base58 (priv.drop 32), lib.base58 priv, m⟩ := by
  rcases hgm : generateMnemonic lib r with ⟨m, _ | e⟩
  · cases hdk : deriveEd25519Key lib m solanaPath with
    | error p => simp [GenerateSolana, hgm, hdk] at h
    | ok res =>
      rcases res with ⟨kb, _ | e⟩
      · cases hnk : NewKeyFromSeed lib kb with
        | error p => simp [GenerateSolana, hgm, hdk, hnk] at h
        | ok priv =>
          simp only [GenerateSolana, hgm, hdk, hnk, Except.ok.injEq, Prod.mk.injEq,
            and_true] at h
          exact ⟨m, kb, priv, rfl, hdk, hnk, h.symm⟩
      · simp [GenerateSolana, hgm, hdk] at h
  · simp [GenerateSolana, hgm] at h

/-- C7: whenever one of `GenerateTron`, `GenerateEthereum`, `GenerateBsc`,
`GenerateBitcoin`, `GenerateSolana` succeeds, the `Mnemonic` field of the wallet it
returns is the string `generateMnemonic` returned, that same string was passed to
`deriveKey` / `deriveEd25519Key` with the generator's path to obtain the key encoded in
the `PrivateKey` field, and the `Network` field is the generator's fixed name. -/
theorem generators_keep_mnemonic (lib : Lib) (r : Rand) :
    ((GenerateTron lib r).2 = none →
      ∃ w m kb, GenerateTron lib r = (some w, none) ∧ generateMnemonic lib r = (m, none) ∧
        deriveKey lib m tronPath = (kb, none) ∧ w.Mnemonic = m ∧ w.Network = "Tron" ∧
        w.PrivateKey = lib.hexEncodeToString kb) ∧
    ((GenerateEthereum lib r).2 = none →
      ∃ w m kb priv, GenerateEthereum lib r = (some w, none) ∧
        generateMnemonic lib r = (m, none) ∧ deriveKey lib m ethereumPath = (kb, none) ∧
        lib.ToECDSA kb = .ok priv ∧ w.Mnemonic = m ∧ w.Network = "Ethereum" ∧
        w.PrivateKey = lib.hexutilEncode (lib.FromECDSA priv)) ∧
    ((GenerateBsc lib r).2 = none →
      ∃ w m kb priv, GenerateBsc lib r = (some w, none) ∧
        generateMnemonic lib r = (m, none) ∧ deriveKey lib m bscPath = (kb, none) ∧
        lib.ToECDSA kb = .ok priv ∧ w.Mnemonic = m ∧ w.Network = "BSC" ∧
        w.PrivateKey = lib.hexutilEncode (lib.FromECDSA priv)) ∧
    ((GenerateBitcoin lib r).2 = none →
      ∃ w m kb wif, GenerateBitcoin lib r = (some w, none) ∧
        generateMnemonic lib r = (m, none) ∧ deriveKey lib m bitcoinPath = (kb, none) ∧
        lib.NewWIF (lib.PrivKeyFromBytes kb) = .ok wif ∧ w.Mnemonic = m ∧
        w.Network = "Bitcoin" ∧ w.PrivateKey = wif) ∧
    (∀ x, GenerateSolana lib r = .ok (x, none) →
      ∃ w m kb priv, x = some w ∧ generateMnemonic lib r = (m, none) ∧
        deriveEd25519Key lib m solanaPath = .ok (kb, none) ∧
        NewKeyFromSeed lib kb = .ok priv ∧ w.Mnemonic = m ∧ w.Network = "Solana" ∧
        w.PrivateKey = lib.base58 priv) := by
  refine ⟨fun h => ?_, fun h => ?_, fun h => ?_, fun h => ?_, fun x h => ?_⟩
  · obtain ⟨m, kb, priv, hgm, hdk, _, hw⟩ := GenerateTron_success lib r h
    exact ⟨_, m, kb, hw, hgm, hdk, rfl, rfl, rfl⟩
  · obtain ⟨m, kb, priv, hgm, hdk, hec, hw⟩ := GenerateEthereum_success lib r h
    exact ⟨_, m, kb, priv, hw, hgm, hdk, hec, rfl, rfl, rfl⟩
  · obtain ⟨m, kb, priv, hgm, hdk, hec, hw⟩ := GenerateBsc_success lib r h
    exact ⟨_, m, kb, priv, hw, hgm, hdk, hec, rfl, rfl, rfl⟩
  · obtain ⟨m, kb, addr, wif, hgm, hdk, _, hwif, hw⟩ := GenerateBitcoin_success lib r h
    exact ⟨_, m, kb, wif, hw, hgm, hdk, hwif, rfl, rfl, rfl⟩
  · obtain ⟨m, kb, priv, hgm, hdk, hnk, hx⟩ := GenerateSolana_success lib r x h
    exact ⟨_, m, kb, priv, hx, hgm, hdk, hnk, rfl, rfl, rfl⟩

/-- C7 witness: with the evaluable library and sixteen bytes of entropy, all five
generators succeed, and each returns the generated mnemonic, its network name and the
encoding of the key derived from that mnemonic. -/
theorem generators_keep_mnemonic_witness :
    generateMnemonic demoLib (List.range 16) = ("000102030405060708090a0b0c0d0e0f", none) ∧
    (GenerateTron demoLib (List.range 16)).2 = none ∧
    (GenerateEthereum demoLib (List.range 16)).2 = none ∧
    (GenerateBsc demoLib (List.range 16)).2 = none ∧
    (GenerateBitcoin demoLib (List.range 16)).2 = none ∧
    GenerateSolana demoLib (List.range 16) =
      .ok (some ⟨"Solana", "7e777069625b544d463f38312a231c150e0700f9f2ebe4ddd6cfc8c1bab3aca5",
        "a5acb3bac1c8cfd6dde4ebf2f900070e151c232a31383f464d545b626970777e7e777069625b544d463f38312a231c150e0700f9f2ebe4ddd6cfc8c1bab3aca5",
        "000102030405060708090a0b0c0d0e0f"⟩, none) ∧
    (∃ w m kb, GenerateTron demoLib (List.range 16) = (some w, none) ∧
      generateMnemonic demoLib (List.range 16) = (m, none) ∧
      deriveKey demoLib m tronPath = (kb, none) ∧ w.Mnemonic = m ∧ w.Network = "Tron" ∧
      w.PrivateKey = demoLib.hexEncodeToString kb) ∧
    (∃ w m kb priv, GenerateEthereum demoLib (List.range 16) = (some w, none) ∧
      generateMnemonic demoLib (List.range 16) = (m, none) ∧
      deriveKey demoLib m ethereumPath = (kb, none) ∧ demoLib.ToECDSA kb = .ok priv ∧
      w.Mnemonic = m ∧ w.Network = "Ethereum" ∧
      w.PrivateKey = demoLib.hexutilEncode (demoLib.FromECDSA priv)) ∧
    (∃ w m kb priv, GenerateBsc demoLib (List.range 16) = (some w, none) ∧
      generateMnemonic demoLib (List.range 16) = (m, none) ∧
      deriveKey demoLib m bscPath = (kb, none) ∧ demoLib.ToECDSA kb = .ok priv ∧
      w.Mnemonic = m ∧ w.Network = "BSC" ∧
      w.PrivateKey = demoLib.hexutilEncode (demoLib.FromECDSA priv)) ∧
    (∃ w m kb wif, GenerateBitcoin demoLib (List.range 16) = (some w, none) ∧
      generateMnemonic demoLib (List.range 16) = (m, none) ∧
      deriveKey demoLib m bitcoinPath = (kb, none) ∧
      demoLib.NewWIF (demoLib.PrivKeyFromBytes kb) = .ok wif ∧ w.Mnemonic = m ∧
      w.Network = "Bitcoin" ∧ w.PrivateKey = wif) ∧
    (∃ w m kb priv,
      some (⟨"Solana", "7e777069625b544d463f38312a231c150e0700f9f2ebe4ddd6cfc8c1bab3aca5",
        "a5acb3bac1c8cfd6dde4ebf2f900070e151c232a31383f464d545b626970777e7e777069625b544d463f38312a231c150e0700f9f2ebe4ddd6cfc8c1bab3aca5",
        "000102030405060708090a0b0c0d0e0f"⟩ : Wallet) = some w ∧
      generateMnemonic demoLib (List.range 16) = (m, none) ∧
      deriveEd25519Key demoLib m solanaPath = .ok (kb, none) ∧
      NewKeyFromSeed demoLib kb = .ok priv ∧ w.Mnemonic = m ∧ w.Network = "Solana" ∧
      w.PrivateKey = demoLib.base58 priv) ∧
    (GenerateTron demoLib (List.range 16)).1.map Wallet.Mnemonic =
      some "000102030405060708090a0b0c0d0e0f" ∧
    (GenerateEthereum demoLib (List.range 16)).1.map Wallet.Mnemonic =
      some "000102030405060708090a0b0c0d0e0f" ∧
    (GenerateBsc demoLib (List.range 16)).1.map Wallet.Mnemonic =
      some "000102030405060708090a0b0c0d0e0f" ∧
    (GenerateBitcoin demoLib (List.range 16)).1.map Wallet.Mnemonic =
      some "000102030405060708090a0b0c0d0e0f" :=
  have w := generators_keep_mnemonic demoLib (List.range 16)
  ⟨by decide, by decide, by decide, by decide, by decide, by decide,
    w.1 (by decide), w.2.1 (by decide), w.2.2.1 (by decide), w.2.2.2.1 (by decide),
    w.2.2.2.2 _ (by decide), by decide, by decide, by decide, by decide⟩

/-! ## Lemmas on the runs in a process state -/

theorem macWrite_hmacNew (key data : Bytes) (w : World) :
    macWrite (hmacNew key w).1 data (hmacNew key w).2 =
      (⟨w.rand, w.macs ++ [⟨key, data⟩]⟩ : World) := by
  simp [macWrite, hmacNew]

theorem macSum_fresh (lib : Lib) (key data : Bytes) (w : World) :
    macSum lib w.macs.length ⟨w.rand, w.macs ++ [⟨key, data⟩]⟩ = lib.hmacSha512 key data := by
  simp [macSum]

theorem edLoopIn_cons (lib : Lib) (k c : Bytes) (i : Nat) (rest : List Nat) (w : World) :
    edLoopIn lib k c (i :: rest) w =
      match childData k i with
      | .error p => .error p
      | .ok data =>
        match sliceTo (lib.hmacSha512 c data) 32 with
        | .error p => .error p
        | .ok key =>
          match sliceFrom (lib.hmacSha512 c data) 32 with
          | .error p => .error p
          | .ok chainCode => edLoopIn lib key chainCode rest ⟨w.rand, w.macs ++ [⟨c, data⟩]⟩ := by
  rw [edLoopIn]
  cases childData k i with
  | error p => rfl
  | ok data =>
    simp only [macWrite_hmacNew]
    rw [show (hmacNew c w).1 = w.macs.length from rfl, macSum_fresh]

/-- The loop in a process state returns what the loop of the functional embedding
returns, whatever the state it starts in. -/
theorem edLoopIn_fst (lib : Lib) (p : List Nat) :
    ∀ (k c : Bytes) (wr : List Bytes) (w : World),
      (edLoopIn lib k c p w).map Prod.fst =
        (edLoop lib ⟨k, c, wr⟩ p).map (fun st => (st.currentKey, st.currentChainCode)) := by
  induction p with
  | nil => intro k c wr w; rfl
  | cons i rest ih =>
    intro k c wr w
    rw [edLoopIn_cons]
    simp only [edLoop, bind, Except.bind]
    cases childData k i with
    | error e => rfl
    | ok data =>
      simp only []
      cases sliceTo (lib.hmacSha512 c data) 32 with
      | error e => rfl
      | ok key =>
        cases sliceFrom (lib.hmacSha512 c data) 32 with
        | error e => rfl
        | ok chainCode => exact ih key chainCode _ _

/-- The loop in a process state leaves the random source untouched and only adds HMAC
objects to the heap. -/
theorem edLoopIn_frame (lib : Lib) (p : List Nat) :
    ∀ (k c : Bytes) (w : World) (r : Bytes × Bytes) (w1 : World),
      edLoopIn lib k c p w = .ok (r, w1) →
        w1.rand = w.rand ∧ ∃ objs, w1.macs = w.macs ++ objs := by
  induction p with
  | nil =>
    intro k c w r w1 h
    simp only [edLoopIn, Except.ok.injEq, Prod.mk.injEq] at h
    rw [← h.2]
    exact ⟨rfl, [], by simp⟩
  | cons i rest ih =>
    intro k c w r w1 h
    rw [edLoopIn_cons] at h
    cases hd : childData k i with
    | error e => rw [hd] at h; cases h
    | ok data =>
      rw [hd] at h
      simp only [] at h
      cases h1 : sliceTo (lib.hmacSha512 c data) 32 with
      | error e => rw [h1] at h; cases h
      | ok key =>
        cases h2 : sliceFrom (lib.hmacSha512 c data) 32 with
        | error e => rw [h1, h2] at h; cases h
        | ok chainCode =>
          rw [h1, h2] at h
          obtain ⟨hr, objs, ho⟩ := ih key chainCode _ r w1 h
          exact ⟨hr, ⟨c, data⟩ :: objs, by rw [ho]; simp⟩

theorem deriveEd25519KeyIn_unfold (wl : WLib) (lib : Lib) (hpure : wl.Pure lib) (m : String)
    (p : List Nat) (w : World) :
    deriveEd25519KeyIn wl lib m p w =
      match sliceTo (lib.hmacSha512 (asciiBytes "ed25519 seed") (lib.NewSeed m "")) 32 with
      | .error e => .error e
      | .ok k =>
        match sliceFrom (lib.hmacSha512 (asciiBytes "ed25519 seed") (lib.NewSeed m "")) 32 with
        | .error e => .error e
        | .ok c =>
          match edLoopIn lib k c p
            ⟨w.rand, w.macs ++ [⟨asciiBytes "ed25519 seed", lib.NewSeed m ""⟩]⟩ with
          | .error e => .error e
          | .ok (st, w3) => .ok ((st.1, none), w3) := by
  simp only [deriveEd25519KeyIn, hpure.1, macWrite_hmacNew]
  rw [show (hmacNew (asciiBytes "ed25519 seed") w).1 = w.macs.length from rfl, macSum_fresh]

/-- In any process state, `deriveEd25519Key` returns what the functional embedding
returns. -/
theorem deriveEd25519KeyIn_fst (wl : WLib) (lib : Lib) (hpure : wl.Pure lib) (m : String)
    (p : List Nat) (w : World) :
    (deriveEd25519KeyIn wl lib m p w).map Prod.fst = deriveEd25519Key lib m p := by
  rw [deriveEd25519KeyIn_unfold wl lib hpure]
  simp only [deriveEd25519Key, edRun, edMaster, bind, Except.bind, pure, Except.pure]
  cases sliceTo (lib.hmacSha512 (asciiBytes "ed25519 seed") (lib.NewSeed m "")) 32 with
  | error e => rfl
  | ok k =>
    cases sliceFrom (lib.hmacSha512 (asciiBytes "ed25519 seed") (lib.NewSeed m "")) 32 with
    | error e => rfl
    | ok c =>
      have h := edLoopIn_fst lib p k c []
        ⟨w.rand, w.macs ++ [⟨asciiBytes "ed25519 seed", lib.NewSeed m ""⟩]⟩
      simp only []
      cases h1 : edLoopIn lib k c p
          ⟨w.rand, w.macs ++ [⟨asciiBytes "ed25519 seed", lib.NewSeed m ""⟩]⟩ with
      | error e =>
        rw [h1] at h
        cases h2 : edLoop lib ⟨k, c, []⟩ p with
        | error e2 => rw [h2] at h; simp only [Except.map, Except.error.injEq] at h; rw [h]; rfl
        | ok st => rw [h2] at h; cases h
      | ok r =>
        rw [h1] at h
        cases h2 : edLoop lib ⟨k, c, []⟩ p with
        | error e2 => rw [h2] at h; cases h
        | ok st =>
          rw [h2] at h
          simp only [Except.map, Except.ok.injEq] at h
          simp only [Except.map, h]

theorem deriveEd25519KeyIn_frame (wl : WLib) (lib : Lib) (hpure : wl.Pure lib) (m : String)
    (p : List Nat) (w : World) (out : Bytes × Option GoError) (w1 : World)
    (h : deriveEd25519KeyIn wl lib m p w = .ok (out, w1)) :
    w1.rand = w.rand ∧ ∃ objs, w1.macs = w.macs ++ objs := by
  rw [deriveEd25519KeyIn_unfold wl lib hpure] at h
  cases h1 : sliceTo (lib.hmacSha512 (asciiBytes "ed25519 seed") (lib.NewSeed m "")) 32 with
  | error e => rw [h1] at h; cases h
  | ok k =>
    cases h2 : sliceFrom (lib.hmacSha512 (asciiBytes "ed25519 seed") (lib.NewSeed m "")) 32 with
    | error e => rw [h1, h2] at h; cases h
    | ok c =>
      rw [h1, h2] at h
      simp only [] at h
      cases h3 : edLoopIn lib k c p
          ⟨w.rand, w.macs ++ [⟨asciiBytes "ed25519 seed", lib.NewSeed m ""⟩]⟩ with
      | error e => rw [h3] at h; cases h
      | ok r =>
        rw [h3] at h
        obtain ⟨st, w3⟩ := r
        simp only [Except.ok.injEq, Prod.mk.injEq] at h
        obtain ⟨hr, objs, ho⟩ := edLoopIn_frame lib p k c _ st w3 h3
        rw [← h.2]
        exact ⟨hr, ⟨asciiBytes "ed25519 seed", lib.NewSeed m ""⟩ :: objs, by rw [ho]; simp⟩

theorem deriveKeyLoopIn_eq (wl : WLib) (lib : Lib) (hpure : wl.Pure lib) (p : List Nat) :
    ∀ (k : Key) (w : World),
      deriveKeyLoopIn wl k p w =
        (((deriveKeyLoop lib k p).key, (deriveKeyLoop lib k p).err), w) := by
  induction p with
  | nil => intro k w; rfl
  | cons i rest ih =>
    intro k w
    simp only [deriveKeyLoopIn, deriveKeyLoop, hpure.2.2]
    cases lib.NewChildKey k i with
    | error e => rfl
    | ok child => exact ih child w

/-- In any process state, `deriveKey` returns what the functional embedding returns and
leaves the state as it found it. -/
theorem deriveKeyIn_eq (wl : WLib) (lib : Lib) (hpure : wl.Pure lib) (m : String)
    (p : List Nat) (w : World) : deriveKeyIn wl m p w = (deriveKey lib m p, w) := by
  simp only [deriveKeyIn, deriveKey, deriveKeyRun, hpure.1, hpure.2.1]
  cases lib.NewMasterKey (lib.NewSeed m "") with
  | error e => rfl
  | ok mk => exact deriveKeyLoopIn_eq wl lib hpure p mk w

theorem demoWLib_pure : demoWLib.Pure demoLib :=
  ⟨fun _ _ _ => rfl, fun _ _ => rfl, fun _ _ _ => rfl⟩

/-! ## Determinism of the derivation functions -/

/-- C8: `deriveKey` and `deriveEd25519Key` are deterministic functions of their
arguments. Run in any two process states (any state of the random source, any HMAC
objects left on the heap by earlier calls), two calls with the same mnemonic and the
same path return identical key bytes and an identical error; so does a call made in the
state a previous call left behind. Neither function touches the random source:
`deriveKey` leaves the whole state as it found it, `deriveEd25519Key` only allocates
HMAC objects of its own. The library's derivation primitives are taken to be functions
of their arguments (`WLib.Pure`). -/
theorem derivation_deterministic (wl : WLib) (lib : Lib) (hpure : wl.Pure lib) (m : String)
    (p : List Nat) (w1 w2 : World) :
    (deriveKeyIn wl m p w1).1 = (deriveKeyIn wl m p w2).1 ∧
    (deriveEd25519KeyIn wl lib m p w1).map Prod.fst =
      (deriveEd25519KeyIn wl lib m p w2).map Prod.fst ∧
    deriveKeyIn wl m p w1 = (deriveKey lib m p, w1) ∧
    (deriveEd25519KeyIn wl lib m p w1).map Prod.fst = deriveEd25519Key lib m p ∧
    (∀ out w3, deriveEd25519KeyIn wl lib m p w1 = .ok (out, w3) →
      w3.rand = w1.rand ∧ ∃ objs, w3.macs = w1.macs ++ objs) ∧
    (∀ m0 p0 out0 w3, deriveEd25519KeyIn wl lib m0 p0 w1 = .ok (out0, w3) →
      (deriveEd25519KeyIn wl lib m p w3).map Prod.fst =
        (deriveEd25519KeyIn wl lib m p w1).map Prod.fst ∧
      (deriveKeyIn wl m p w3).1 = (deriveKeyIn wl m p w1).1) := by
  refine ⟨?_, ?_, deriveKeyIn_eq wl lib hpure m p w1, deriveEd25519KeyIn_fst wl lib hpure m p w1,
    fun out w3 h => deriveEd25519KeyIn_frame wl lib hpure m p w1 out w3 h,
    fun m0 p0 out0 w3 _ => ⟨?_, ?_⟩⟩
  · rw [deriveKeyIn_eq wl lib hpure, deriveKeyIn_eq wl lib hpure]
  · rw [deriveEd25519KeyIn_fst wl lib hpure, deriveEd25519KeyIn_fst wl lib hpure]
  · rw [deriveEd25519KeyIn_fst wl lib hpure, deriveEd25519KeyIn_fst wl lib hpure]
  · rw [deriveKeyIn_eq wl lib hpure, deriveKeyIn_eq wl lib hpure]

/-- C8 witness: the evaluable library in two process states that differ in the random
source and in the heap. The derivation functions return the same in both, while
`generateMnemonic`, which reads the random source, does not. -/
theorem derivation_deterministic_witness :
    demoWLib.Pure demoLib ∧
    (deriveKeyIn demoWLib "abandon about" [0x8000002C, 5] ⟨List.range 16, []⟩).1 =
      (deriveKeyIn demoWLib "abandon about" [0x8000002C, 5]
        ⟨List.replicate 16 9, [⟨[1], [2]⟩]⟩).1 ∧
    (deriveEd25519KeyIn demoWLib demoLib "abandon about" [0x8000002C, 5]
        ⟨List.range 16, []⟩).map Prod.fst =
      (deriveEd25519KeyIn demoWLib demoLib "abandon about" [0x8000002C, 5]
        ⟨List.replicate 16 9, [⟨[1], [2]⟩]⟩).map Prod.fst ∧
    (generateMnemonicIn demoWLib ⟨List.range 16, []⟩).1 ≠
      (generateMnemonicIn demoWLib ⟨List.replicate 16 9, [⟨[1], [2]⟩]⟩).1 :=
  have w := derivation_deterministic demoWLib demoLib demoWLib_pure "abandon about"
    [0x8000002C, 5] ⟨List.range 16, []⟩ ⟨List.replicate 16 9, [⟨[1], [2]⟩]⟩
  ⟨demoWLib_pure, w.1, w.2.1, by decide⟩

end WalletGenerator
